import Mathlib

/-!
Verification of `automotive-pricing-intelligence.py`, a one-shot pandas
pipeline: load an Excel table, strip text columns, resolve column names,
coerce numeric columns, drop duplicate rows, drop rows with missing
price/part, derive pricing metrics, write CSV extracts and charts, and
finally loop over the expected output files (a loop whose body contains
the "extra analytics" section).

The embedding models a pandas table as an ordered list of rows over an
ordered list of (named, dtype-tagged) columns.  Cell values are text,
exact rationals (standing for the finite floats), the two infinities
(which float division by zero produces), or missing (NaN/NA).  Pandas
behaviours that matter to the claims are modelled cell-for-cell:
`astype(str)` turns NaN into the literal string "nan", `to_numeric`
coercion failures become missing, comparisons with missing are false,
`drop_duplicates` keeps first occurrences, `sort_values(ascending=False)`
reverses the non-NaN block around a stable ascending argsort and appends
NaN positions last (pandas `nargsort` with `na_position='last'`; numpy's
sort is stable on the small partitions it insertion-sorts, and the model
adopts the stable semantics), and `Series.quantile` linearly interpolates
over the sorted non-missing values.
-/

namespace AutoPricing

open scoped List

/-- Column dtype: `obj` (pandas object/text) or `num` (numeric). -/
inductive Dtype
  | obj
  | num
deriving DecidableEq, Repr

/-- A cell value: a string, a finite numeric (exact rational standing for the
float), one of the two infinities that float arithmetic can produce, or
missing (NaN / pd.NA).  `drop_duplicates` compares NaN equal to NaN, which
plain equality on this type reproduces. -/
inductive Value
  | str (s : String)
  | num (q : ℚ)
  | posInf
  | negInf
  | missing
deriving DecidableEq, Repr

namespace Value

/-- `pd.isna` on a cell: true exactly on missing (infinities are not NA). -/
def isNA : Value → Bool
  | .missing => true
  | _ => false

/-- Float addition semantics (used by quantile interpolation): missing is
absorbing, infinities follow IEEE rules (`inf + -inf = nan`).  String
operands cannot reach the arithmetic in the script's numeric columns and
are sent to missing. -/
def vadd : Value → Value → Value
  | .num x, .num y => .num (x + y)
  | .num _, .posInf => .posInf
  | .posInf, .num _ => .posInf
  | .num _, .negInf => .negInf
  | .negInf, .num _ => .negInf
  | .posInf, .posInf => .posInf
  | .negInf, .negInf => .negInf
  | .posInf, .negInf => .missing
  | .negInf, .posInf => .missing
  | _, _ => .missing

/-- Float subtraction semantics (`Price_diff`, `Margin`): missing is
absorbing, `inf - inf = nan`. -/
def vsub : Value → Value → Value
  | .num x, .num y => .num (x - y)
  | .num _, .posInf => .negInf
  | .num _, .negInf => .posInf
  | .posInf, .num _ => .posInf
  | .negInf, .num _ => .negInf
  | .posInf, .negInf => .posInf
  | .negInf, .posInf => .negInf
  | .posInf, .posInf => .missing
  | .negInf, .negInf => .missing
  | _, _ => .missing

/-- Float multiplication semantics (`Revenue_calc`, `* 100`): missing is
absorbing, `0 * inf = nan`, signs of infinities follow IEEE rules. -/
def vmul : Value → Value → Value
  | .num x, .num y => .num (x * y)
  | .num x, .posInf => if x > 0 then .posInf else if x < 0 then .negInf else .missing
  | .posInf, .num x => if x > 0 then .posInf else if x < 0 then .negInf else .missing
  | .num x, .negInf => if x > 0 then .negInf else if x < 0 then .posInf else .missing
  | .negInf, .num x => if x > 0 then .negInf else if x < 0 then .posInf else .missing
  | .posInf, .posInf => .posInf
  | .negInf, .negInf => .posInf
  | .posInf, .negInf => .negInf
  | .negInf, .posInf => .negInf
  | _, _ => .missing

/-- Float division semantics (`Price_pct_diff`): division by zero yields a
signed infinity (`0/0 = nan`), a finite value over an infinity is zero,
`inf/inf = nan`, missing is absorbing. -/
def vdiv : Value → Value → Value
  | .num x, .num y =>
      if y = 0 then (if x > 0 then .posInf else if x < 0 then .negInf else .missing)
      else .num (x / y)
  | .num _, .posInf => .num 0
  | .num _, .negInf => .num 0
  | .posInf, .num y => if y < 0 then .negInf else .posInf
  | .negInf, .num y => if y < 0 then .posInf else .negInf
  | _, _ => .missing

/-- Pandas elementwise strict `<`: any comparison involving NaN is false;
infinities compare as in IEEE; strings compare lexicographically. -/
def vlt : Value → Value → Bool
  | .num x, .num y => decide (x < y)
  | .num _, .posInf => true
  | .negInf, .num _ => true
  | .negInf, .posInf => true
  | .str x, .str y => decide (x < y)
  | _, _ => false

/-- Pandas elementwise `≤`: strict `<` or same-kind equality; any comparison
involving NaN is false. -/
def vle (a b : Value) : Bool :=
  vlt a b || (!a.isNA && decide (a = b))

/-- Kind rank used to make the sorting comparator total (missing never
reaches the comparator: `nargsort` extracts NaN positions first). -/
def rank : Value → Nat
  | .negInf => 0
  | .num _ => 1
  | .posInf => 2
  | .str _ => 3
  | .missing => 4

/-- Total comparator used for sorting non-missing keys: numerics and strings
by their own linear orders, different kinds by rank. -/
def sortLE (a b : Value) : Bool :=
  match a, b with
  | .num x, .num y => decide (x ≤ y)
  | .str x, .str y => decide (x ≤ y)
  | _, _ => decide (rank a ≤ rank b)

theorem sortLE_trans (a b c : Value) (hab : sortLE a b) (hbc : sortLE b c) :
    sortLE a c := by
  cases a <;> cases b <;> cases c <;>
    simp_all only [sortLE, rank, decide_eq_true_eq] <;>
    first
    | omega
    | exact le_trans hab hbc

theorem sortLE_total (a b : Value) : sortLE a b || sortLE b a := by
  cases a <;> cases b <;>
    simp only [sortLE, rank, Bool.or_eq_true, decide_eq_true_eq] <;>
    first
    | omega
    | exact le_total _ _

end Value

/-! ### `pd.to_numeric(·, errors='coerce')`

The coverage is the decimal-literal grammar (optional sign, digits with an
optional fractional part, optional exponent) plus the `inf`/`infinity`/`nan`
spellings, case-insensitively on the trimmed string; anything else coerces
to missing.  (Pandas additionally accepts a few exotic spellings such as
underscore separators; those never parse here and fall to missing, which no
claim distinguishes.) -/

/-- Numeric value of a digit string (most significant first). -/
def digitsVal (cs : List Char) : ℕ :=
  cs.foldl (fun n c => n * 10 + (c.toNat - '0'.toNat)) 0

/-- `10 ^ e` for a signed exponent. -/
def tenPow (e : ℤ) : ℚ :=
  if 0 ≤ e then ((10 : ℚ) ^ e.toNat) else 1 / ((10 : ℚ) ^ (-e).toNat)

/-- Parse an optional exponent suffix (`e`/`E` already lowercased to `e`);
the empty list means exponent 0, anything malformed fails. -/
def parseExp : List Char → Option ℤ
  | [] => some 0
  | 'e' :: rest =>
    let (neg, ds) :=
      match rest with
      | '+' :: ds => (false, ds)
      | '-' :: ds => (true, ds)
      | ds => (false, ds)
    if ds ≠ [] ∧ ds.all Char.isDigit then
      some (if neg then -(digitsVal ds : ℤ) else (digitsVal ds : ℤ))
    else none
  | _ => none

/-- Parse an unsigned decimal literal `digits[.digits][e[sign]digits]`;
at least one digit must appear around the point. -/
def parseDec (cs : List Char) : Option ℚ :=
  let d1 := cs.takeWhile Char.isDigit
  let rest1 := cs.dropWhile Char.isDigit
  match rest1 with
  | '.' :: rest2 =>
    let d2 := rest2.takeWhile Char.isDigit
    let rest3 := rest2.dropWhile Char.isDigit
    if d1 = [] ∧ d2 = [] then none
    else
      (parseExp rest3).map fun e =>
        (digitsVal (d1 ++ d2) : ℚ) / (10 : ℚ) ^ d2.length * tenPow e
  | rest =>
    if d1 = [] then none
    else (parseExp rest).map fun e => (digitsVal d1 : ℚ) * tenPow e

/-- Parse a lowercased, trimmed string as a float the way `pd.to_numeric`
does: optional sign, then `nan` (missing), `inf`/`infinity`, or a decimal
literal; failures coerce to missing. -/
def parseNumStr (cs : List Char) : Value :=
  let (neg, body) :=
    match cs with
    | '+' :: rest => (false, rest)
    | '-' :: rest => (true, rest)
    | rest => (false, rest)
  if body = "nan".toList then .missing
  else if body = "inf".toList ∨ body = "infinity".toList then
    (if neg then .negInf else .posInf)
  else
    match parseDec body with
    | some q => .num (if neg then -q else q)
    | none => .missing

/-- ASCII whitespace, as stripped by Python `str.strip()` (the exotic
Unicode whitespace Python also strips never occurs in the data model). -/
def isWS (c : Char) : Bool :=
  c = ' ' || c = '\t' || c = '\n' || c = '\r'

/-- Strip leading and trailing whitespace (structural-recursion
implementation of `str.strip()`). -/
def trimChars (cs : List Char) : List Char :=
  ((cs.dropWhile isWS).reverse.dropWhile isWS).reverse

/-- `str.strip()` on a string. -/
def trimStr (s : String) : String :=
  ⟨trimChars s.data⟩

/-- ASCII lowercasing of one character (all the case-insensitive spellings
`to_numeric` accepts are ASCII). -/
def lowChar (c : Char) : Char :=
  if 65 ≤ c.toNat ∧ c.toNat ≤ 90 then Char.ofNat (c.toNat + 32) else c

/-- `pd.to_numeric(·, errors='coerce')` on one cell: numerics and
infinities pass through, strings are parsed after trimming and ASCII
lowercasing (unparseable → missing), missing stays missing. -/
def toNumericVal : Value → Value
  | .str s => parseNumStr ((trimChars s.data).map lowChar)
  | v => v

/-- `.astype(str).str.strip()` on one cell of an object column: strings are
trimmed, a NaN cell becomes the literal string `"nan"` (Python
`str(float('nan'))`), and the rare non-string residents of an object column
render via `str(·)` (the model prints rationals with `toString`, a detail no
claim touches). -/
def astypeStrStrip : Value → Value
  | .str s => .str (trimStr s)
  | .missing => .str "nan"
  | .num q => .str (toString q)
  | .posInf => .str "inf"
  | .negInf => .str "-inf"

/-! ### The table -/

/-- A pandas DataFrame: named, dtype-tagged columns over an ordered list of
rows; cell `(i, j)` is `rows[i][j]`. -/
structure DF where
  cols : List String
  dtypes : List Dtype
  rows : List (List Value)
deriving Repr, DecidableEq

namespace DF

/-- Rectangularity: one dtype per column and one cell per column in every
row — what an actual loaded DataFrame always satisfies. -/
def wf (df : DF) : Bool :=
  df.dtypes.length == df.cols.length &&
    df.rows.all (fun r => r.length == df.cols.length)

/-- Index of a column name (first match). -/
def colIdx (df : DF) (name : String) : Option ℕ :=
  df.cols.findIdx? (· = name)

/-- `name in df.columns`. -/
def hasCol (df : DF) (name : String) : Bool :=
  decide (name ∈ df.cols)

/-- The cell of row `r` in the named column (missing when the column does
not exist or the row is short). -/
def cellOf (df : DF) (name : String) (r : List Value) : Value :=
  match df.colIdx name with
  | some j => r.getD j .missing
  | none => .missing

/-- Dtype of the named column. -/
def dtypeOf (df : DF) (name : String) : Option Dtype :=
  (df.colIdx name).bind fun j => df.dtypes.get? j

end DF

/-- Replace the element at index `j` (identity when out of range). -/
def listModify {α : Type} (f : α → α) : ℕ → List α → List α
  | _, [] => []
  | 0, a :: l => f a :: l
  | j + 1, a :: l => a :: listModify f j l

/-- Normalize a row to exactly `n` cells (identity on well-formed rows). -/
def padTrunc (r : List Value) (n : ℕ) : List Value :=
  r.take n ++ List.replicate (n - r.length) .missing

/-! ### Cleaning stages (source lines 26–69) -/

/-- One row of the text-cleaning loop: `df[c] = df[c].astype(str).str.strip()`
applied to every object-dtype column (cells of non-object columns pass
through; leftover cells of a malformed row are untouched). -/
def stripRow : List Dtype → List Value → List Value
  | d :: ds, v :: vs => (if d = .obj then astypeStrStrip v else v) :: stripRow ds vs
  | _, vs => vs

/-- Lines 26–31: strip every object-dtype column. -/
def stripStage (df : DF) : DF :=
  { df with rows := df.rows.map (stripRow df.dtypes) }

/-- Lines 35–39: `find_col` — first of the candidate literal names that is a
column of `df`, else `None`. -/
def find_col (df : DF) (possible_names : List String) : Option String :=
  possible_names.find? (fun name => df.hasCol name)

/-- The `col_map` dictionary. -/
structure ColMap where
  price : Option String
  competitor_price : Option String
  cost : Option String
  units : Option String
  part : Option String
deriving Repr, DecidableEq

/-- Lines 41–45: resolve the five logical roles against the fixed,
ordered alias lists. -/
def buildColMap (df : DF) : ColMap where
  price := find_col df ["Price", "price", "Unit_Price"]
  competitor_price :=
    find_col df ["Competitor_Price", "competitor_price", "Comp_Price", "Competitor price"]
  cost := find_col df ["Cost", "cost", "Unit_Cost"]
  units := find_col df ["Units_Sold", "Units", "Quantity", "units_sold"]
  part := find_col df ["Part_Name", "Part", "Part_ID", "PartName"]

/-- `df[col] = pd.to_numeric(df[col], errors='coerce')` for one resolved
role (no-op when the role is unresolved). -/
def coerceCol (df : DF) : Option String → DF
  | none => df
  | some c =>
    match df.colIdx c with
    | none => df
    | some j =>
      { df with
        dtypes := listModify (fun _ => .num) j df.dtypes,
        rows := df.rows.map (listModify toNumericVal j) }

/-- Lines 52–55: coerce the four numeric roles, in the source's key order. -/
def coerceStage (df : DF) (cm : ColMap) : DF :=
  coerceCol (coerceCol (coerceCol (coerceCol df cm.price) cm.competitor_price) cm.cost) cm.units

/-- Helper for `drop_duplicates`: keep the elements not seen before, in
order, accumulating the seen ones. -/
def dedupFirstAux {α : Type} [DecidableEq α] (seen : List α) : List α → List α
  | [] => []
  | a :: l => if a ∈ seen then dedupFirstAux seen l else a :: dedupFirstAux (a :: seen) l

/-- `drop_duplicates` (default `keep='first'`): keep each row's first
occurrence, delete the later ones, preserving order. -/
def dedupFirst {α : Type} [DecidableEq α] (l : List α) : List α :=
  dedupFirstAux [] l

/-- "`a`'s first occurrence precedes `b`'s first occurrence in `l`". -/
def firstBefore {α : Type} [DecidableEq α] (l : List α) (a b : α) : Prop :=
  l.indexOf a < l.indexOf b

/-- Line 59: `df = df.drop_duplicates()`. -/
def dedupStage (df : DF) : DF :=
  { df with rows := dedupFirst df.rows }

/-- Line 68: `df = df.dropna(subset=[col_map['price'], col_map['part']])` —
keep the rows whose price and part cells are both non-missing. -/
def dropnaStage (df : DF) (prc part : String) : DF :=
  { df with
    rows := df.rows.filter (fun r =>
      !(df.cellOf prc r).isNA && !(df.cellOf part r).isNA) }

/-- The whole cleaning pipeline after the mandatory-column guard passed:
strip, coerce, dedup, drop rows missing price/part. (`cm` is resolved
against the stripped table, as in the source.) -/
def cleanedTable (df0 : DF) (cm : ColMap) (prc part : String) : DF :=
  dropnaStage (dedupStage (coerceStage (stripStage df0) cm)) prc part

/-! ### Derived metrics (source lines 71–80) -/

/-- Assign a column: overwrite it in place when the name exists (pandas
`df[name] = ...` keeps the column position), else append it on the right.
The cell function `f` reads the pre-assignment row. -/
def setCol (df : DF) (name : String) (dty : Dtype) (f : List Value → Value) : DF :=
  match df.colIdx name with
  | some j =>
    { df with
      dtypes := listModify (fun _ => dty) j df.dtypes,
      rows := df.rows.map (fun r => (padTrunc r df.cols.length).set j (f r)) }
  | none =>
    { cols := df.cols ++ [name],
      dtypes := df.dtypes ++ [dty],
      rows := df.rows.map (fun r => padTrunc r df.cols.length ++ [f r]) }

/-- Dtype of a derived column: numeric when its source role resolved,
object (a column of `pd.NA`) otherwise. -/
def roleDtype : Option String → Dtype
  | some _ => .num
  | none => .obj

/-- Line 77: `df[pr] - df[cp] if cp is not None else pd.NA`, per row. -/
def pdiffCell (df : DF) (cm : ColMap) (pr : String) (r : List Value) : Value :=
  match cm.competitor_price with
  | some cpn => Value.vsub (df.cellOf pr r) (df.cellOf cpn r)
  | none => .missing

/-- Line 78: `df['Price_diff'] / df[cp] * 100 if cp is not None else pd.NA`,
per row of the table `d1` that already has the `Price_diff` column. -/
def pctCell (d1 : DF) (cm : ColMap) (r : List Value) : Value :=
  match cm.competitor_price with
  | some cpn =>
    Value.vmul (Value.vdiv (d1.cellOf "Price_diff" r) (d1.cellOf cpn r)) (.num 100)
  | none => .missing

/-- Line 79: `df[pr] - df[co] if co is not None else pd.NA`, per row. -/
def marginCell (d2 : DF) (cm : ColMap) (pr : String) (r : List Value) : Value :=
  match cm.cost with
  | some con => Value.vsub (d2.cellOf pr r) (d2.cellOf con r)
  | none => .missing

/-- Line 80: `df[pr] * df[un] if un is not None else pd.NA`, per row. -/
def revCell (d3 : DF) (cm : ColMap) (pr : String) (r : List Value) : Value :=
  match cm.units with
  | some unn => Value.vmul (d3.cellOf pr r) (d3.cellOf unn r)
  | none => .missing

/-- Lines 71–80: the four derived columns, each an unconditional column
assignment whose cells are missing (`pd.NA`) when the needed role is
unresolved.  `Price_pct_diff` reads the just-assigned `Price_diff`
column, as in the source. -/
def deriveStage (df0 : DF) (cm : ColMap) : DF :=
  match cm.price with
  | none => df0
  | some pr =>
    let d1 := setCol df0 "Price_diff" (roleDtype cm.competitor_price) (pdiffCell df0 cm pr)
    let d2 := setCol d1 "Price_pct_diff" (roleDtype cm.competitor_price) (pctCell d1 cm)
    let d3 := setCol d2 "Margin" (roleDtype cm.cost) (marginCell d2 cm pr)
    setCol d3 "Revenue_calc" (roleDtype cm.units) (revCell d3 cm pr)

/-! ### Sorting, quantiles, extracts (source lines 90–114) -/

/-- The descending comparator on rows induced by the named key column. -/
def rowDescLE (df : DF) (name : String) (a b : List Value) : Bool :=
  Value.sortLE (df.cellOf name b) (df.cellOf name a)

/-- `df.sort_values(by=name, ascending=False)`.  Pandas `nargsort` moves
the rows with a missing key to the end and sorts the rest descending with
numpy's default `kind='quicksort'` (introsort), which promises a sorted
permutation of the rows but no particular order among rows with equal
keys.  The model realizes one output with a merge sort under the flipped
total comparator; only facts that hold for every permutation satisfying
the sort's contract (`sortDescSpec` below) — membership, sortedness,
missing-keys-last — are read off as program guarantees, while the model's
particular tie order is a choice of the embedding, not a property of the
program. -/
def sortValuesDesc (df : DF) (name : String) : DF :=
  let nonNan := df.rows.filter (fun r => !(df.cellOf name r).isNA)
  let nans := df.rows.filter (fun r => (df.cellOf name r).isNA)
  { df with rows := nonNan.mergeSort (rowDescLE df name) ++ nans }

/-- `Series.quantile(q)` with the default linear interpolation: drop the
missing values, sort, and interpolate at position `q * (n - 1)` (NaN when
the series is empty; the value itself at an exact index). -/
def quantileList (vals : List Value) (q : ℚ) : Value :=
  let xs := (vals.filter (fun v => !v.isNA)).mergeSort Value.sortLE
  if xs.length = 0 then .missing
  else
    let pos : ℚ := q * ((xs.length : ℚ) - 1)
    let i : ℕ := pos.floor.toNat
    let frac : ℚ := pos - pos.floor
    if frac = 0 then xs.getD i .missing
    else
      Value.vadd (xs.getD i .missing)
        (Value.vmul (.num frac) (Value.vsub (xs.getD (i + 1) .missing) (xs.getD i .missing)))

/-- Quantile of a named column over the whole table. -/
def quantileCol (df : DF) (name : String) (q : ℚ) : Value :=
  quantileList (df.rows.map (df.cellOf name)) q

/-- Boolean-mask row filter `df[mask]` (order-preserving). -/
def filterRows (df : DF) (p : List Value → Bool) : DF :=
  { df with rows := df.rows.filter p }

/-- Lines 90–92: the revenue source — an existing `Revenue`/`revenue`
column if present, else `Revenue_calc`. -/
def revColOf (df : DF) : String :=
  match find_col df ["Revenue", "revenue"] with
  | some c => c
  | none => "Revenue_calc"

/-- Line 93: `df.sort_values(by=rev_col, ascending=False).head(20)`. -/
def topRevenueStage (df : DF) : DF :=
  let s := sortValuesDesc df (revColOf df)
  { s with rows := s.rows.take 20 }

/-- Line 99: `df[df['Price_pct_diff'] > 10].sort_values('Price_pct_diff',
ascending=False)` (comparisons with NaN are false, so NaN rows are
excluded). -/
def overpricedStage (df : DF) : DF :=
  sortValuesDesc
    (filterRows df (fun r => Value.vlt (.num 10) (df.cellOf "Price_pct_diff" r)))
    "Price_pct_diff"

/-- Lines 108–110: the two independent quantiles over the whole cleaned
table, then `df[(df['Margin'] <= margin_q) & (df[un] >= units_q)]` sorted
descending by the units column. -/
def lowMarginStage (df : DF) (unn : String) : DF :=
  let margin_q := quantileCol df "Margin" (1 / 4)
  let units_q := quantileCol df unn (3 / 4)
  sortValuesDesc
    (filterRows df (fun r =>
      Value.vle (df.cellOf "Margin" r) margin_q && Value.vle units_q (df.cellOf unn r)))
    unn

/-! ### The extra-analytics section and the whole run (lines 82–171) -/

/-- Outcome of one pass through the extra-analytics section (lines 150–171):
whether it completes, and whether `top10_profitable_parts.csv` got written
before a later statement raised.  Each statement raises `KeyError` when a
column it names is absent; the `mean` aggregation and `corr` additionally
raise on a non-numeric dtype.  The first component is "completed", the
second "wrote the top-10 file" (steps 1–3 succeeded). -/
def analyticsOutcome (df : DF) : Bool × Bool :=
  let ok1 := df.hasCol "Brand" && df.hasCol "Revenue"
  let ok2 := df.hasCol "Region" && df.hasCol "Gross_Margin_%" &&
    decide (df.dtypeOf "Gross_Margin_%" = some .num)
  let ok3 := df.hasCol "Profit"
  let ok4 := df.hasCol "Cost" && df.hasCol "Price" &&
    decide (df.dtypeOf "Cost" = some .num) &&
    decide (df.dtypeOf "Price" = some .num) &&
    decide (df.dtypeOf "Profit" = some .num)
  (ok1 && ok2 && ok3 && ok4, ok1 && ok2 && ok3)

def fileName : String := "automotive_pricing_bi_dataset.xlsx"
def cleanName : String := "cleaned_automotive_pricing.csv"
def top20Name : String := "top20_by_revenue.csv"
def overpricedName : String := "parts_overpriced_gt10pct.csv"
def lowMarginName : String := "low_margin_high_sales.csv"
def chartPriceName : String := "chart_price_distribution.png"
def chartPctName : String := "chart_price_pct_diff.png"
def top10Name : String := "top10_profitable_parts.csv"

def msgFileNotFound : String :=
  "ERROR: Excel file not found in project folder: automotive_pricing_bi_dataset.xlsx"
def msgMissingCols : String :=
  "ERROR: Required column(s) missing (price or part). Please check column names and run again."
def msgSkipOverpriced : String :=
  "Competitor price column not found — skipping overpriced list."
def msgSkipLowMargin : String :=
  "Cost or Units column not found — skipping low-margin-high-sales list."
def msgSkipPctChart : String :=
  "No competitor price -> skipped chart_price_pct_diff"

/-- Line 141's fixed list of expected output files. -/
def manifestList : List String :=
  [cleanName, top20Name, overpricedName, lowMarginName, chartPriceName, chartPctName]

/-- Result of one process run: exit status, the output files written (in
write order, possibly with repeats), the diagnostic/skip messages printed
(informational prints such as row counts are elided), the contents of the
CSV extracts that were written, and whether the extra-analytics section was
entered. -/
structure RunResult where
  exit : ℕ
  written : List String
  msgs : List String
  cleaned : Option DF := none
  top20 : Option DF := none
  overpriced : Option DF := none
  lowMargin : Option DF := none
  enteredExtra : Bool := false
deriving Repr

/-- The output files of the export/chart stages (lines 82–138), in write
order: the cleaned CSV and top-20 CSV always, the over-priced CSV iff
competitor price resolved, the low-margin CSV iff cost and units both
resolved, the price chart always, the percent-difference chart iff
competitor price resolved. -/
def exportFiles (cm : ColMap) : List String :=
  [cleanName, top20Name]
    ++ (match cm.competitor_price with | some _ => [overpricedName] | none => [])
    ++ (match cm.cost, cm.units with | some _, some _ => [lowMarginName] | _, _ => [])
    ++ [chartPriceName]
    ++ (match cm.competitor_price with | some _ => [chartPctName] | none => [])

/-- The skip notices of the export/chart stages, in print order. -/
def skipMsgs (cm : ColMap) : List String :=
  (match cm.competitor_price with | some _ => [] | none => [msgSkipOverpriced])
    ++ (match cm.cost, cm.units with | some _, some _ => [] | _, _ => [msgSkipLowMargin])
    ++ (match cm.competitor_price with | some _ => [] | none => [msgSkipPctChart])

/-- Lines 82–171 on the derived table `df`: the exports and charts, then
the manifest loop whose body is the extra-analytics section.  The loop
enters its body once per output file that exists; the cleaned CSV was just
written, so the body runs, and an uncaught exception there ends the
process with exit status 1 (after the files written so far); when the
analytics completes, it rewrites `top10_profitable_parts.csv` once per
existing manifest file and the process ends with exit status 0. -/
def runExports (df : DF) (cm : ColMap) : RunResult :=
  let op : Option DF :=
    match cm.competitor_price with
    | some _ => some (overpricedStage df)
    | none => none
  let lm : Option DF :=
    match cm.cost, cm.units with
    | some _, some unn => some (lowMarginStage df unn)
    | _, _ => none
  let wrote := exportFiles cm
  let present := manifestList.filter (fun f => decide (f ∈ wrote))
  let oc := analyticsOutcome df
  if present = [] then
    { exit := 0, written := wrote, msgs := skipMsgs cm,
      cleaned := some df, top20 := some (topRevenueStage df), overpriced := op,
      lowMargin := lm, enteredExtra := false }
  else if oc.1 then
    { exit := 0, written := wrote ++ present.map (fun _ => top10Name), msgs := skipMsgs cm,
      cleaned := some df, top20 := some (topRevenueStage df), overpriced := op,
      lowMargin := lm, enteredExtra := true }
  else
    { exit := 1, written := wrote ++ (if oc.2 then [top10Name] else []), msgs := skipMsgs cm,
      cleaned := some df, top20 := some (topRevenueStage df), overpriced := op,
      lowMargin := lm, enteredExtra := true }

/-- The whole script, line for line, on a freshly-started working directory
(no leftover output files from earlier runs, so the manifest loop's
`os.path.exists` test sees exactly this run's writes).  Inputs: whether the
Excel file exists, and the loaded table. -/
def runScript (fileExists : Bool) (df0 : DF) : RunResult :=
  if !fileExists then
    { exit := 1, written := [], msgs := [msgFileNotFound] }
  else
    let cm := buildColMap (stripStage df0)
    match cm.price, cm.part with
    | some pr, some pa =>
      runExports (deriveStage (cleanedTable df0 cm pr pa) cm) cm
    | _, _ =>
      { exit := 1, written := [], msgs := [msgMissingCols] }

/-! ### Spec-side definitions used by the claim statements -/

/-- The row function that the metric-derivation stage applies to every row
of a well-formed table whose columns do not already contain the four
derived names: the four derived cells are appended on the right
(`deriveStage_rows` below proves the correspondence). -/
def deriveRow (df : DF) (cm : ColMap) (pr : String) (r : List Value) : List Value :=
  let pd := pdiffCell df cm pr r
  let pct : Value :=
    match cm.competitor_price with
    | some cpn => Value.vmul (Value.vdiv pd (df.cellOf cpn r)) (.num 100)
    | none => .missing
  r ++ [pd, pct, marginCell df cm pr r, revCell df cm pr r]

/-- "Sorted descending by the named column, missing keys last": row `b` may
follow row `a` when `b`'s key is missing, or both keys are present and
`b`'s is at most `a`'s. -/
def descKeyRel (df : DF) (name : String) (a b : List Value) : Prop :=
  (df.cellOf name b).isNA = true ∨
    ((df.cellOf name a).isNA = false ∧ Value.sortLE (df.cellOf name b) (df.cellOf name a) = true)

instance (df : DF) (name : String) (a b : List Value) :
    Decidable (descKeyRel df name a b) := by
  unfold descKeyRel; infer_instance

/-- The output contract of `df.sort_values(by=name, ascending=False)`
(lines 93, 99, 110): with the default `kind='quicksort'` — numpy's
introsort, which makes no stability promise — the sort guarantees that the
result is a permutation of the rows, descending in the key with missing
keys last, and nothing more; the relative order of rows with equal keys is
implementation-dependent. -/
def sortDescSpec (df : DF) (name : String) (l : List (List Value)) : Prop :=
  l ~ df.rows ∧ l.Pairwise (descKeyRel df name)

instance (df : DF) (name : String) (l : List (List Value)) :
    Decidable (sortDescSpec df name l) := by
  unfold sortDescSpec; infer_instance

/-- Rectangularity of a table (what `pd.read_excel` always yields): one
dtype per column, one cell per column in every row. -/
def WF (df : DF) : Prop :=
  df.dtypes.length = df.cols.length ∧ ∀ r ∈ df.rows, r.length = df.cols.length

instance (df : DF) : Decidable (WF df) := by
  unfold WF; infer_instance

/-- All column names a `ColMap` resolved are actual columns of `df` (true
by construction for `buildColMap` results, stated for reuse). -/
def resolvedIn (df : DF) (cm : ColMap) : Bool :=
  cm.price.all df.hasCol && cm.competitor_price.all df.hasCol &&
    cm.cost.all df.hasCol && cm.units.all df.hasCol && cm.part.all df.hasCol

/-- The four derived column names, fresh in normal input tables. -/
def derivedNames : List String :=
  ["Price_diff", "Price_pct_diff", "Margin", "Revenue_calc"]

/-- Freshness of the derived names in the input's columns (the source
overwrites instead of appending when an input column already uses one of
the four names). -/
def FreshDerived (df : DF) : Prop :=
  ∀ n ∈ derivedNames, ¬ df.hasCol n = true

instance (df : DF) : Decidable (FreshDerived df) := by
  unfold FreshDerived; infer_instance

/-- The column map the script builds (resolution runs after the strip
stage, which leaves the column names unchanged). -/
def colMapOf (df0 : DF) : ColMap :=
  buildColMap (stripStage df0)

/-- The cleaned table of a run whose mandatory columns resolved. -/
def cleanedOf (df0 : DF) (pr pa : String) : DF :=
  cleanedTable df0 (colMapOf df0) pr pa

/-- The cleaned table with the four derived metric columns — the content of
`cleaned_automotive_pricing.csv`. -/
def derivedOf (df0 : DF) (pr pa : String) : DF :=
  deriveStage (cleanedOf df0 pr pa) (colMapOf df0)

/-! ### Concrete witness tables -/

/-- A well-formed table exercising every feature: all five roles resolve,
one exact duplicate pair, one row with a missing part name in the
object-dtype part column, one row with a missing price, the spec's two
worked examples (price 120 / competitor 100, and price 50 / cost 30 /
units 4), and no `Brand` column. -/
def wDF : DF :=
  { cols := ["Part_Name", "Price", "Competitor_Price", "Cost", "Units_Sold"],
    dtypes := [.obj, .num, .num, .num, .num],
    rows := [
      [.str "A", .num 120, .num 100, .num 30, .num 4],
      [.str " B ", .num 50, .num 40, .num 30, .num 4],
      [.str " B ", .num 50, .num 40, .num 30, .num 4],
      [.missing, .num 10, .num 10, .num 5, .num 1],
      [.str "C", .missing, .num 10, .num 5, .num 1]] }

/-- A table whose competitor-price and cost columns are absent (the
overpriced and low-margin extracts are skipped). -/
def noCpDF : DF :=
  { cols := ["Part_Name", "Price", "Units_Sold"],
    dtypes := [.obj, .num, .num],
    rows := [
      [.str "A", .num 120, .num 4],
      [.str "B", .num 50, .num 7]] }

/-- A table with no resolvable price column (fatal mandatory-column case). -/
def noPriceDF : DF :=
  { cols := ["Part_Name"],
    dtypes := [.obj],
    rows := [[.str "A"]] }

/-- A cleaned-and-derived-shaped table whose first two rows tie on
`Revenue_calc` (the concrete instance for the tie-order question on the
top-20 extract). -/
def ctDF : DF :=
  { cols := ["Part_Name", "Revenue_calc"],
    dtypes := [.obj, .num],
    rows := [
      [.str "A", .num 60],
      [.str "B", .num 60],
      [.str "C", .num 30]] }

/-- The rows of `ctDF` with the tied pair swapped — still a valid output
under the sort's contract. -/
def ctSwapped : List (List Value) :=
  [[.str "B", .num 60], [.str "A", .num 60], [.str "C", .num 30]]

/-- A table that already uses the derived name `Margin` and has no cost
column: line 79 then overwrites its `Margin` column with the scalar
missing value, merging its two rows — which differ only there — into full
duplicates. -/
def dupDF : DF :=
  { cols := ["Part_Name", "Price", "Margin"],
    dtypes := [.obj, .num, .num],
    rows := [
      [.str "A", .num 100, .num 1],
      [.str "A", .num 100, .num 2]] }

/-! ## Helper lemmas -/

theorem sortLE_refl (a : Value) : Value.sortLE a a = true := by
  cases a <;> simp [Value.sortLE]

theorem findIdx?_append_isSome {α : Type} {p : α → Bool} {l₁ l₂ : List α}
    (h : (l₁.findIdx? p).isSome) : (l₁ ++ l₂).findIdx? p = l₁.findIdx? p := by
  induction l₁ with
  | nil => simp at h
  | cons a l ih =>
    by_cases hpa : p a = true
    · simp [List.findIdx?_cons, hpa]
    · simp only [List.cons_append, List.findIdx?_cons, hpa, if_false,
        List.findIdx?_start_succ] at h ⊢
      rw [ih (by simpa using h)]

theorem findIdx?_append_none {α : Type} {p : α → Bool} {l₁ l₂ : List α}
    (h : l₁.findIdx? p = none) :
    (l₁ ++ l₂).findIdx? p = (l₂.findIdx? p).map (· + l₁.length) := by
  induction l₁ with
  | nil => simp
  | cons a l ih =>
    by_cases hpa : p a = true
    · simp [List.findIdx?_cons, hpa] at h
    · have h' : l.findIdx? p = none := by
        cases hl : l.findIdx? p with
        | none => rfl
        | some k => simp [List.findIdx?_cons, hpa, List.findIdx?_start_succ, hl] at h
      simp only [List.cons_append, List.findIdx?_cons, hpa, if_false,
        List.findIdx?_start_succ, ih h', Option.map_map, List.length_cons]
      cases l₂.findIdx? p with
      | none => rfl
      | some k =>
        show some _ = some _
        congr 1

theorem listModify_length {α : Type} (f : α → α) (j : ℕ) (l : List α) :
    (listModify f j l).length = l.length := by
  induction l generalizing j with
  | nil => cases j <;> rfl
  | cons a l ih =>
    cases j with
    | zero => rfl
    | succ j => simp [listModify, ih]

theorem listModify_getD_ne {α : Type} {f : α → α} {j j' : ℕ} {l : List α} {d : α}
    (h : j ≠ j') : (listModify f j' l).getD j d = l.getD j d := by
  induction l generalizing j j' with
  | nil => cases j' <;> rfl
  | cons a l ih =>
    cases j' with
    | zero =>
      cases j with
      | zero => exact absurd rfl h
      | succ j => rfl
    | succ j' =>
      cases j with
      | zero => rfl
      | succ j => simpa [listModify] using ih (by omega)

theorem listModify_getD_self {α : Type} (f : α → α) (j : ℕ) (l : List α) (d : α)
    (h : j < l.length) : (listModify f j l).getD j d = f (l.getD j d) := by
  induction l generalizing j with
  | nil => simp at h
  | cons a l ih =>
    cases j with
    | zero => rfl
    | succ j => simpa [listModify] using ih j (by simpa using h)

theorem stripRow_length (ds : List Dtype) (r : List Value) :
    (stripRow ds r).length = r.length := by
  induction ds generalizing r with
  | nil => cases r <;> rfl
  | cons d ds ih =>
    cases r with
    | nil => rfl
    | cons v vs => simp [stripRow, ih]

theorem stripRow_getD (ds : List Dtype) (r : List Value) (j : ℕ)
    (hj : j < ds.length) (hr : j < r.length) :
    (stripRow ds r).getD j .missing =
      (if ds.getD j .num = .obj then astypeStrStrip (r.getD j .missing)
       else r.getD j .missing) := by
  induction ds generalizing r j with
  | nil => simp at hj
  | cons d ds ih =>
    cases r with
    | nil => simp at hr
    | cons v vs =>
      cases j with
      | zero => simp [stripRow]
      | succ j =>
        simpa [stripRow] using ih vs j (by simpa using hj) (by simpa using hr)

theorem padTrunc_eq_self {r : List Value} {n : ℕ} (h : r.length = n) :
    padTrunc r n = r := by
  subst h
  simp [padTrunc]

theorem pairwise_of_all {α : Type} {R : α → α → Prop} {l : List α}
    (h : ∀ b ∈ l, ∀ a, R a b) : l.Pairwise R := by
  induction l with
  | nil => exact List.Pairwise.nil
  | cons a l ih =>
    exact List.Pairwise.cons (fun b hb => h b (List.mem_cons_of_mem a hb) a)
      (ih fun b hb a' => h b (List.mem_cons_of_mem a hb) a')

theorem mem_dedupFirstAux {α : Type} [DecidableEq α] {x : α} {seen l : List α} :
    x ∈ dedupFirstAux seen l ↔ x ∈ l ∧ x ∉ seen := by
  induction l generalizing seen with
  | nil => simp [dedupFirstAux]
  | cons a l ih =>
    unfold dedupFirstAux
    by_cases ha : a ∈ seen
    · rw [if_pos ha, ih]
      constructor
      · rintro ⟨h1, h2⟩
        exact ⟨List.mem_cons_of_mem a h1, h2⟩
      · rintro ⟨h1, h2⟩
        rcases List.mem_cons.mp h1 with rfl | h1
        · exact absurd ha h2
        · exact ⟨h1, h2⟩
    · rw [if_neg ha]
      constructor
      · intro h
        rcases List.mem_cons.mp h with rfl | h
        · exact ⟨List.mem_cons_self _ _, ha⟩
        · obtain ⟨h1, h2⟩ := ih.mp h
          exact ⟨List.mem_cons_of_mem a h1, fun hx => h2 (List.mem_cons_of_mem a hx)⟩
      · rintro ⟨h1, h2⟩
        rcases List.mem_cons.mp h1 with rfl | h1
        · exact List.mem_cons_self _ _
        · by_cases hxa : x = a
          · exact hxa ▸ List.mem_cons_self _ _
          · refine List.mem_cons_of_mem a (ih.mpr ⟨h1, ?_⟩)
            intro hx
            rcases List.mem_cons.mp hx with h3 | h3
            · exact hxa h3
            · exact h2 h3

theorem dedupFirstAux_sublist {α : Type} [DecidableEq α] (seen l : List α) :
    dedupFirstAux seen l <+ l := by
  induction l generalizing seen with
  | nil => exact List.Sublist.refl _
  | cons a l ih =>
    unfold dedupFirstAux
    by_cases ha : a ∈ seen
    · rw [if_pos ha]
      exact (ih seen).cons a
    · rw [if_neg ha]
      exact (ih (a :: seen)).cons₂ a

theorem nodup_dedupFirstAux {α : Type} [DecidableEq α] (seen l : List α) :
    (dedupFirstAux seen l).Nodup := by
  induction l generalizing seen with
  | nil => exact List.nodup_nil
  | cons a l ih =>
    unfold dedupFirstAux
    by_cases ha : a ∈ seen
    · rw [if_pos ha]
      exact ih seen
    · rw [if_neg ha]
      refine List.nodup_cons.mpr ⟨fun h => ?_, ih (a :: seen)⟩
      exact (mem_dedupFirstAux.mp h).2 (List.mem_cons_self a seen)

theorem dedupFirst_sublist {α : Type} [DecidableEq α] (l : List α) :
    dedupFirst l <+ l :=
  dedupFirstAux_sublist [] l

theorem mem_dedupFirst {α : Type} [DecidableEq α] {x : α} {l : List α} :
    x ∈ dedupFirst l ↔ x ∈ l := by
  unfold dedupFirst
  rw [mem_dedupFirstAux]
  simp

theorem nodup_dedupFirst {α : Type} [DecidableEq α] (l : List α) :
    (dedupFirst l).Nodup :=
  nodup_dedupFirstAux [] l

theorem firstBefore_cons {α : Type} [DecidableEq α] {a x y : α} {l : List α}
    (hx : x ≠ a) (hy : y ≠ a) (h : firstBefore l x y) : firstBefore (a :: l) x y := by
  unfold firstBefore at h ⊢
  rw [List.indexOf_cons_ne _ (Ne.symm hx), List.indexOf_cons_ne _ (Ne.symm hy)]
  exact Nat.succ_lt_succ h

theorem pairwise_dedupFirstAux {α : Type} [DecidableEq α] (seen l : List α) :
    (dedupFirstAux seen l).Pairwise (firstBefore l) := by
  induction l generalizing seen with
  | nil => exact List.Pairwise.nil
  | cons a l ih =>
    unfold dedupFirstAux
    by_cases ha : a ∈ seen
    · rw [if_pos ha]
      refine (ih seen).imp_of_mem ?_
      intro x y hx hy hxy
      have hxs := (mem_dedupFirstAux.mp hx).2
      have hys := (mem_dedupFirstAux.mp hy).2
      exact firstBefore_cons (fun he => hxs (he ▸ ha)) (fun he => hys (he ▸ ha)) hxy
    · rw [if_neg ha]
      refine List.Pairwise.cons ?_ ?_
      · intro y hy
        have hys := (mem_dedupFirstAux.mp hy).2
        have hya : y ≠ a := fun he => hys (he ▸ List.mem_cons_self a seen)
        unfold firstBefore
        rw [List.indexOf_cons_self, List.indexOf_cons_ne _ (Ne.symm hya)]
        exact Nat.succ_pos _
      · refine (ih (a :: seen)).imp_of_mem ?_
        intro x y hx hy hxy
        have hxs := (mem_dedupFirstAux.mp hx).2
        have hys := (mem_dedupFirstAux.mp hy).2
        exact firstBefore_cons (fun he => hxs (he ▸ List.mem_cons_self a seen))
          (fun he => hys (he ▸ List.mem_cons_self a seen)) hxy

theorem dedupFirst_pairwise_indexOf {α : Type} [DecidableEq α] (l : List α) :
    (dedupFirst l).Pairwise (firstBefore l) :=
  pairwise_dedupFirstAux [] l

/-! ### Stage bookkeeping lemmas -/

theorem cellOf_eq_of_cols {df df' : DF} (h : df.cols = df'.cols) (name : String)
    (r : List Value) : df.cellOf name r = df'.cellOf name r := by
  unfold DF.cellOf DF.colIdx
  rw [h]

theorem coerceCol_cols (df : DF) (c : Option String) : (coerceCol df c).cols = df.cols := by
  cases c with
  | none => rfl
  | some c =>
    unfold coerceCol
    cases h : df.colIdx c <;> simp only [h]

theorem coerceStage_cols (df : DF) (cm : ColMap) : (coerceStage df cm).cols = df.cols := by
  unfold coerceStage
  rw [coerceCol_cols, coerceCol_cols, coerceCol_cols, coerceCol_cols]

theorem cleanedTable_cols (df0 : DF) (cm : ColMap) (prc part : String) :
    (cleanedTable df0 cm prc part).cols = df0.cols := by
  unfold cleanedTable dropnaStage dedupStage
  exact coerceStage_cols (stripStage df0) cm

theorem coerceCol_rows_map (df : DF) (c : Option String) :
    ∃ g, (coerceCol df c).rows = df.rows.map g := by
  cases c with
  | none => exact ⟨id, (List.map_id _).symm⟩
  | some c =>
    unfold coerceCol
    cases h : df.colIdx c with
    | none => simp only [h]; exact ⟨id, (List.map_id _).symm⟩
    | some j => simp only [h]; exact ⟨_, rfl⟩

theorem coerceStage_rows_map (df : DF) (cm : ColMap) :
    ∃ g, (coerceStage df cm).rows = df.rows.map g := by
  obtain ⟨g1, h1⟩ := coerceCol_rows_map df cm.price
  obtain ⟨g2, h2⟩ := coerceCol_rows_map (coerceCol df cm.price) cm.competitor_price
  obtain ⟨g3, h3⟩ :=
    coerceCol_rows_map (coerceCol (coerceCol df cm.price) cm.competitor_price) cm.cost
  obtain ⟨g4, h4⟩ :=
    coerceCol_rows_map
      (coerceCol (coerceCol (coerceCol df cm.price) cm.competitor_price) cm.cost) cm.units
  refine ⟨g4 ∘ g3 ∘ g2 ∘ g1, ?_⟩
  unfold coerceStage
  rw [h4, h3, h2, h1]
  simp [List.map_map, Function.comp]

theorem WF_stripStage {df : DF} (h : WF df) : WF (stripStage df) := by
  obtain ⟨h1, h2⟩ := h
  refine ⟨h1, ?_⟩
  intro r hr
  rcases List.mem_map.mp hr with ⟨r0, hr0, rfl⟩
  rw [stripRow_length]
  exact h2 r0 hr0

theorem WF_coerceCol {df : DF} (c : Option String) (h : WF df) : WF (coerceCol df c) := by
  obtain ⟨h1, h2⟩ := h
  cases c with
  | none => exact ⟨h1, h2⟩
  | some c =>
    unfold coerceCol
    cases hc : df.colIdx c with
    | none => simp only [hc]; exact ⟨h1, h2⟩
    | some j =>
      simp only [hc]
      refine ⟨by simpa [listModify_length] using h1, ?_⟩
      intro r hr
      rcases List.mem_map.mp hr with ⟨r0, hr0, rfl⟩
      rw [listModify_length]
      exact h2 r0 hr0

theorem WF_coerceStage {df : DF} (cm : ColMap) (h : WF df) : WF (coerceStage df cm) :=
  WF_coerceCol _ (WF_coerceCol _ (WF_coerceCol _ (WF_coerceCol _ h)))

theorem WF_dedupStage {df : DF} (h : WF df) : WF (dedupStage df) := by
  obtain ⟨h1, h2⟩ := h
  exact ⟨h1, fun r hr => h2 r ((dedupFirst_sublist df.rows).subset hr)⟩

theorem WF_dropnaStage {df : DF} (a b : String) (h : WF df) : WF (dropnaStage df a b) := by
  obtain ⟨h1, h2⟩ := h
  exact ⟨h1, fun r hr => h2 r (List.mem_of_mem_filter hr)⟩

theorem WF_cleanedTable {df0 : DF} (cm : ColMap) (prc part : String) (h : WF df0) :
    WF (cleanedTable df0 cm prc part) :=
  WF_dropnaStage _ _ (WF_dedupStage (WF_coerceStage cm (WF_stripStage h)))

/-! ### Column-index and cell lemmas -/

theorem colIdx_eq_none_of_not_hasCol {df : DF} {name : String} (h : df.hasCol name = false) :
    df.colIdx name = none := by
  unfold DF.colIdx
  rw [List.findIdx?_eq_none_iff]
  intro x hx
  have hnm : name ∉ df.cols := of_decide_eq_false h
  exact decide_eq_false (fun he => hnm (he ▸ hx))

theorem colIdx_isSome_of_hasCol {df : DF} {name : String} (h : df.hasCol name = true) :
    (df.colIdx name).isSome = true := by
  unfold DF.colIdx
  rw [List.findIdx?_isSome]
  exact List.any_eq_true.mpr ⟨name, of_decide_eq_true h, by simp⟩

theorem colIdx_lt_length {df : DF} {name : String} {j : ℕ} (h : df.colIdx name = some j) :
    j < df.cols.length :=
  (List.findIdx?_eq_some_iff_findIdx_eq.mp h).1

theorem cellOf_ext_old {dfd df : DF} {ext : List String} (hcols : dfd.cols = df.cols ++ ext)
    {name : String} {r x : List Value} (h : df.hasCol name = true)
    (hlen : r.length = df.cols.length) :
    dfd.cellOf name (r ++ x) = df.cellOf name r := by
  have hs := colIdx_isSome_of_hasCol h
  obtain ⟨j, hj⟩ := Option.isSome_iff_exists.mp hs
  have hjl : j < df.cols.length := colIdx_lt_length hj
  have hj' : df.cols.findIdx? (· = name) = some j := hj
  unfold DF.cellOf DF.colIdx
  rw [hcols, findIdx?_append_isSome hs, hj']
  exact List.getD_append _ _ _ _ (hlen ▸ hjl)

theorem cellOf_ext_new {dfd df : DF} {ext : List String} (hcols : dfd.cols = df.cols ++ ext)
    {name : String} {k : ℕ} {r x : List Value} (h : df.hasCol name = false)
    (hext : ext.findIdx? (· = name) = some k) (hlen : r.length = df.cols.length) :
    dfd.cellOf name (r ++ x) = x.getD k .missing := by
  unfold DF.cellOf DF.colIdx
  rw [hcols, findIdx?_append_none (colIdx_eq_none_of_not_hasCol h), hext]
  show (r ++ x).getD (k + df.cols.length) .missing = x.getD k .missing
  rw [List.getD_append_right _ _ _ _ (by omega)]
  congr 1
  omega

theorem padTrunc_length (r : List Value) (n : ℕ) : (padTrunc r n).length = n := by
  simp only [padTrunc, List.length_append, List.length_take, List.length_replicate]
  omega

theorem setCol_fresh_spec {df : DF} {name : String} (dty : Dtype) (f : List Value → Value)
    (hwf : WF df) (h : df.hasCol name = false) :
    (setCol df name dty f).cols = df.cols ++ [name] ∧
    WF (setCol df name dty f) ∧
    (setCol df name dty f).rows = df.rows.map (fun r => r ++ [f r]) := by
  obtain ⟨h1, h2⟩ := hwf
  unfold setCol
  rw [colIdx_eq_none_of_not_hasCol h]
  refine ⟨rfl, ⟨by simp [h1], ?_⟩, ?_⟩
  · intro r hr
    rcases List.mem_map.mp hr with ⟨r0, _, rfl⟩
    simp [padTrunc_length]
  · refine List.map_congr_left ?_
    intro r hr
    rw [padTrunc_eq_self (h2 r hr)]

/-! ### The metric-derivation bridge -/

theorem hasCol_false_of_fresh {df : DF} (hfr : FreshDerived df) {n : String}
    (hn : n ∈ derivedNames) : df.hasCol n = false :=
  Bool.eq_false_iff.mpr (hfr n hn)

theorem hasCol_ext_false {df' df : DF} {ext : List String} (hcols : df'.cols = df.cols ++ ext)
    {n : String} (h1 : df.hasCol n = false) (h2 : n ∉ ext) : df'.hasCol n = false := by
  unfold DF.hasCol
  rw [hcols]
  simp only [decide_eq_false_iff_not, List.mem_append]
  rintro (h | h)
  · exact of_decide_eq_false h1 h
  · exact h2 h

theorem resolvedIn_fields {df : DF} {cm : ColMap} (h : resolvedIn df cm = true) :
    (∀ c, cm.price = some c → df.hasCol c = true) ∧
    (∀ c, cm.competitor_price = some c → df.hasCol c = true) ∧
    (∀ c, cm.cost = some c → df.hasCol c = true) ∧
    (∀ c, cm.units = some c → df.hasCol c = true) ∧
    (∀ c, cm.part = some c → df.hasCol c = true) := by
  unfold resolvedIn at h
  simp only [Bool.and_eq_true] at h
  obtain ⟨⟨⟨⟨h1, h2⟩, h3⟩, h4⟩, h5⟩ := h
  refine ⟨fun c hc => ?_, fun c hc => ?_, fun c hc => ?_, fun c hc => ?_, fun c hc => ?_⟩
  · rw [hc] at h1; exact h1
  · rw [hc] at h2; exact h2
  · rw [hc] at h3; exact h3
  · rw [hc] at h4; exact h4
  · rw [hc] at h5; exact h5

theorem deriveStage_spec {df : DF} {cm : ColMap} {pr : String}
    (hwf : WF df) (hfr : FreshDerived df) (hres : resolvedIn df cm = true)
    (hpr : cm.price = some pr) :
    (deriveStage df cm).cols = df.cols ++ derivedNames ∧
    WF (deriveStage df cm) ∧
    (deriveStage df cm).rows = df.rows.map (deriveRow df cm pr) := by
  have hf1 : df.hasCol "Price_diff" = false :=
    hasCol_false_of_fresh hfr (by simp [derivedNames])
  have hf2 : df.hasCol "Price_pct_diff" = false :=
    hasCol_false_of_fresh hfr (by simp [derivedNames])
  have hf3 : df.hasCol "Margin" = false :=
    hasCol_false_of_fresh hfr (by simp [derivedNames])
  have hf4 : df.hasCol "Revenue_calc" = false :=
    hasCol_false_of_fresh hfr (by simp [derivedNames])
  obtain ⟨hresP, hresCp, hresCo, hresUn, hresPa⟩ := resolvedIn_fields hres
  obtain ⟨c1, w1, r1⟩ :=
    setCol_fresh_spec (roleDtype cm.competitor_price) (pdiffCell df cm pr) hwf hf1
  set d1 := setCol df "Price_diff" (roleDtype cm.competitor_price) (pdiffCell df cm pr)
    with hd1
  have hf2' : d1.hasCol "Price_pct_diff" = false := hasCol_ext_false c1 hf2 (by simp)
  obtain ⟨c2, w2, r2⟩ :=
    setCol_fresh_spec (roleDtype cm.competitor_price) (pctCell d1 cm) w1 hf2'
  set d2 := setCol d1 "Price_pct_diff" (roleDtype cm.competitor_price) (pctCell d1 cm)
    with hd2
  have c2' : d2.cols = df.cols ++ ["Price_diff", "Price_pct_diff"] := by
    rw [c2, c1, List.append_assoc]
    rfl
  have hf3' : d2.hasCol "Margin" = false := hasCol_ext_false c2' hf3 (by simp)
  obtain ⟨c3, w3, r3⟩ := setCol_fresh_spec (roleDtype cm.cost) (marginCell d2 cm pr) w2 hf3'
  set d3 := setCol d2 "Margin" (roleDtype cm.cost) (marginCell d2 cm pr) with hd3
  have c3' : d3.cols = df.cols ++ ["Price_diff", "Price_pct_diff", "Margin"] := by
    rw [c3, c2', List.append_assoc]
    rfl
  have hf4' : d3.hasCol "Revenue_calc" = false := hasCol_ext_false c3' hf4 (by simp)
  obtain ⟨c4, w4, r4⟩ := setCol_fresh_spec (roleDtype cm.units) (revCell d3 cm pr) w3 hf4'
  set d4 := setCol d3 "Revenue_calc" (roleDtype cm.units) (revCell d3 cm pr) with hd4
  have c4' : d4.cols = df.cols ++ derivedNames := by
    rw [c4, c3', List.append_assoc]
    rfl
  have hds : deriveStage df cm = d4 := by
    unfold deriveStage
    rw [hpr]
  refine hds ▸ ⟨c4', w4, ?_⟩
  rw [r4, r3, r2, r1]
  simp only [List.map_map]
  refine List.map_congr_left ?_
  intro r hr
  have hlen : r.length = df.cols.length := hwf.2 r hr
  simp only [Function.comp_apply]
  have hB : pctCell d1 cm (r ++ [pdiffCell df cm pr r]) =
      (match cm.competitor_price with
       | some cpn =>
         Value.vmul (Value.vdiv (pdiffCell df cm pr r) (df.cellOf cpn r)) (.num 100)
       | none => .missing) := by
    cases hcp : cm.competitor_price with
    | none => simp [pctCell, hcp]
    | some cpn =>
      have e1 : d1.cellOf "Price_diff" (r ++ [pdiffCell df cm pr r]) =
          pdiffCell df cm pr r := cellOf_ext_new c1 hf1 rfl hlen
      simp only [pctCell, hcp]
      rw [e1, cellOf_ext_old c1 (hresCp cpn hcp) hlen]
  have hrow2 : ∀ x y : Value, (r ++ [x]) ++ [y] = r ++ [x, y] := by
    intro x y
    simp
  have hrow3 : ∀ x y z : Value, ((r ++ [x]) ++ [y]) ++ [z] = r ++ [x, y, z] := by
    intro x y z
    simp
  have hC : ∀ y : Value, marginCell d2 cm pr ((r ++ [pdiffCell df cm pr r]) ++ [y]) =
      marginCell df cm pr r := by
    intro y
    cases hco : cm.cost with
    | none => simp [marginCell, hco]
    | some con =>
      simp only [marginCell, hco]
      rw [hrow2, cellOf_ext_old c2' (hresP pr hpr) hlen,
        cellOf_ext_old c2' (hresCo con hco) hlen]
  have hD : ∀ y z : Value,
      revCell d3 cm pr (((r ++ [pdiffCell df cm pr r]) ++ [y]) ++ [z]) =
        revCell df cm pr r := by
    intro y z
    cases hun : cm.units with
    | none => simp [revCell, hun]
    | some unn =>
      simp only [revCell, hun]
      rw [hrow3, cellOf_ext_old c3' (hresP pr hpr) hlen,
        cellOf_ext_old c3' (hresUn unn hun) hlen]
  rw [hD, hC, hB]
  unfold deriveRow
  simp

/-! ### Derived-table cell lemmas -/

theorem derived_cellOf_orig {df : DF} {cm : ColMap} {pr : String}
    (hwf : WF df) (hfr : FreshDerived df) (hres : resolvedIn df cm = true)
    (hpr : cm.price = some pr) {n : String} {r : List Value} (hn : df.hasCol n = true)
    (hr : r.length = df.cols.length) :
    (deriveStage df cm).cellOf n (deriveRow df cm pr r) = df.cellOf n r :=
  cellOf_ext_old (deriveStage_spec hwf hfr hres hpr).1 hn hr

theorem derived_cellOf_pdiff {df : DF} {cm : ColMap} {pr : String}
    (hwf : WF df) (hfr : FreshDerived df) (hres : resolvedIn df cm = true)
    (hpr : cm.price = some pr) {r : List Value} (hr : r.length = df.cols.length) :
    (deriveStage df cm).cellOf "Price_diff" (deriveRow df cm pr r) = pdiffCell df cm pr r :=
  cellOf_ext_new (deriveStage_spec hwf hfr hres hpr).1
    (hasCol_false_of_fresh hfr (by simp [derivedNames]))
    (rfl : derivedNames.findIdx? (· = "Price_diff") = some 0) hr

theorem derived_cellOf_pct {df : DF} {cm : ColMap} {pr : String}
    (hwf : WF df) (hfr : FreshDerived df) (hres : resolvedIn df cm = true)
    (hpr : cm.price = some pr) {r : List Value} (hr : r.length = df.cols.length) :
    (deriveStage df cm).cellOf "Price_pct_diff" (deriveRow df cm pr r) =
      (match cm.competitor_price with
       | some cpn =>
         Value.vmul (Value.vdiv (pdiffCell df cm pr r) (df.cellOf cpn r)) (.num 100)
       | none => .missing) :=
  cellOf_ext_new (deriveStage_spec hwf hfr hres hpr).1
    (hasCol_false_of_fresh hfr (by simp [derivedNames]))
    (rfl : derivedNames.findIdx? (· = "Price_pct_diff") = some 1) hr

theorem derived_cellOf_margin {df : DF} {cm : ColMap} {pr : String}
    (hwf : WF df) (hfr : FreshDerived df) (hres : resolvedIn df cm = true)
    (hpr : cm.price = some pr) {r : List Value} (hr : r.length = df.cols.length) :
    (deriveStage df cm).cellOf "Margin" (deriveRow df cm pr r) = marginCell df cm pr r :=
  cellOf_ext_new (deriveStage_spec hwf hfr hres hpr).1
    (hasCol_false_of_fresh hfr (by simp [derivedNames]))
    (rfl : derivedNames.findIdx? (· = "Margin") = some 2) hr

theorem derived_cellOf_rev {df : DF} {cm : ColMap} {pr : String}
    (hwf : WF df) (hfr : FreshDerived df) (hres : resolvedIn df cm = true)
    (hpr : cm.price = some pr) {r : List Value} (hr : r.length = df.cols.length) :
    (deriveStage df cm).cellOf "Revenue_calc" (deriveRow df cm pr r) = revCell df cm pr r :=
  cellOf_ext_new (deriveStage_spec hwf hfr hres hpr).1
    (hasCol_false_of_fresh hfr (by simp [derivedNames]))
    (rfl : derivedNames.findIdx? (· = "Revenue_calc") = some 3) hr

/-! ### Sorting lemmas -/

theorem rowDescLE_trans (df : DF) (n : String) :
    ∀ a b c, rowDescLE df n a b → rowDescLE df n b c → rowDescLE df n a c :=
  fun _ _ _ hab hbc => Value.sortLE_trans _ _ _ hbc hab

theorem rowDescLE_total (df : DF) (n : String) :
    ∀ a b, rowDescLE df n a b || rowDescLE df n b a :=
  fun _ _ => Value.sortLE_total _ _

theorem sortValuesDesc_cols (df : DF) (n : String) : (sortValuesDesc df n).cols = df.cols := rfl

theorem sortValuesDesc_perm (df : DF) (n : String) :
    (sortValuesDesc df n).rows ~ df.rows := by
  unfold sortValuesDesc
  refine ((List.mergeSort_perm _ _).append_right _).trans ?_
  have h2 := List.filter_append_perm (fun r => !(df.cellOf n r).isNA) df.rows
  simpa only [Bool.not_not] using h2

theorem mem_sortValuesDesc {df : DF} {n : String} {r : List Value} :
    r ∈ (sortValuesDesc df n).rows ↔ r ∈ df.rows :=
  (sortValuesDesc_perm df n).mem_iff

theorem nodup_sortValuesDesc {df : DF} {n : String} (h : df.rows.Nodup) :
    (sortValuesDesc df n).rows.Nodup :=
  (sortValuesDesc_perm df n).nodup_iff.mpr h

theorem sortValuesDesc_sorted (df : DF) (n : String) :
    (sortValuesDesc df n).rows.Pairwise (descKeyRel df n) := by
  unfold sortValuesDesc
  rw [List.pairwise_append]
  refine ⟨?_, ?_, ?_⟩
  · have hs := List.sorted_mergeSort (rowDescLE_trans df n) (rowDescLE_total df n)
      (df.rows.filter fun r => !(df.cellOf n r).isNA)
    refine hs.imp_of_mem ?_
    intro a b ha hb hab
    have haNA : (df.cellOf n a).isNA = false := by
      simpa using List.of_mem_filter (List.mem_mergeSort.mp ha)
    exact Or.inr ⟨haNA, hab⟩
  · refine pairwise_of_all ?_
    intro b hb a
    exact Or.inl (by simpa using List.of_mem_filter hb)
  · intro a _ b hb
    exact Or.inl (by simpa using List.of_mem_filter hb)

/-! ### Cleaning lemmas -/

theorem astypeStrStrip_not_NA (v : Value) : (astypeStrStrip v).isNA = false := by
  cases v <;> rfl

theorem cleanedTable_nodup (df0 : DF) (cm : ColMap) (prc part : String) :
    (cleanedTable df0 cm prc part).rows.Nodup :=
  List.Nodup.filter _ (nodup_dedupFirst _)

theorem cleanedTable_rows_nonNA {df0 : DF} {cm : ColMap} {prc part : String}
    {r : List Value} (hr : r ∈ (cleanedTable df0 cm prc part).rows) :
    ((cleanedTable df0 cm prc part).cellOf prc r).isNA = false ∧
      ((cleanedTable df0 cm prc part).cellOf part r).isNA = false := by
  have h := List.of_mem_filter hr
  simp only [Bool.and_eq_true, Bool.not_eq_true'] at h
  have hc : (cleanedTable df0 cm prc part).cols =
      (dedupStage (coerceStage (stripStage df0) cm)).cols := rfl
  exact ⟨(cellOf_eq_of_cols hc prc r) ▸ h.1, (cellOf_eq_of_cols hc part r) ▸ h.2⟩

theorem find_col_hasCol {df : DF} {names : List String} {c : String}
    (h : find_col df names = some c) : df.hasCol c = true :=
  List.find?_some h

theorem find_col_mem {df : DF} {names : List String} {c : String}
    (h : find_col df names = some c) : c ∈ names :=
  List.mem_of_find?_eq_some h

theorem hasCol_eq_of_cols {df df' : DF} (h : df.cols = df'.cols) :
    df.hasCol = df'.hasCol := by
  funext n
  unfold DF.hasCol
  rw [h]

theorem buildColMap_resolvedIn {df dfT : DF} (hcols : dfT.cols = df.cols) :
    resolvedIn dfT (buildColMap df) = true := by
  have hhc : dfT.hasCol = df.hasCol := hasCol_eq_of_cols hcols
  have key : ∀ names : List String, (find_col df names).all df.hasCol = true := by
    intro names
    cases h : find_col df names with
    | none => rfl
    | some c => simpa [Option.all] using find_col_hasCol h
  unfold resolvedIn buildColMap
  rw [hhc]
  simp [key]

theorem FreshDerived_of_cols {df df' : DF} (h : df'.cols = df.cols)
    (hfr : FreshDerived df) : FreshDerived df' := by
  intro n hn
  rw [show df'.hasCol n = df.hasCol n from congrFun (hasCol_eq_of_cols h) n]
  exact hfr n hn

theorem rows_prop_sublist {df' df : DF} (hcols : df'.cols = df.cols)
    (hsub : df'.rows <+ df.rows) {pa : String} (P : Value → Prop)
    (h : ∀ r ∈ df.rows, P (df.cellOf pa r)) :
    ∀ r ∈ df'.rows, P (df'.cellOf pa r) :=
  fun r hr => (cellOf_eq_of_cols hcols pa r) ▸ h r (hsub.subset hr)

theorem colIdx_getD {df : DF} {name : String} {j : ℕ} (h : df.colIdx name = some j) :
    df.cols.getD j "" = name := by
  obtain ⟨hlt, hp, -⟩ := List.findIdx?_eq_some_iff_getElem.mp h
  rw [List.getD_eq_getElem _ _ hlt]
  exact of_decide_eq_true hp

theorem stripStage_cell_obj {df0 : DF} (hwf : WF df0) {pa : String} {j : ℕ}
    (hj : df0.colIdx pa = some j) (hdt : df0.dtypes.getD j .num = .obj) :
    ∀ r ∈ (stripStage df0).rows, ((stripStage df0).cellOf pa r).isNA = false := by
  intro r hr
  rcases List.mem_map.mp hr with ⟨r0, hr0, rfl⟩
  have hjd : j < df0.dtypes.length := hwf.1 ▸ colIdx_lt_length hj
  have hjr : j < r0.length := (hwf.2 r0 hr0) ▸ colIdx_lt_length hj
  have hcell : (stripStage df0).cellOf pa (stripRow df0.dtypes r0) =
      astypeStrStrip (r0.getD j .missing) := by
    unfold DF.cellOf
    rw [show (stripStage df0).colIdx pa = some j from hj]
    show (stripRow df0.dtypes r0).getD j Value.missing = astypeStrStrip (r0.getD j Value.missing)
    rw [stripRow_getD _ _ _ hjd hjr, hdt]
    simp
  rw [hcell]
  exact astypeStrStrip_not_NA _

theorem coerceCol_cell_invariant {df : DF} (c : Option String) {pa : String}
    (P : Value → Prop) (hne : ∀ cn, c = some cn → pa ≠ cn)
    (h : ∀ r ∈ df.rows, P (df.cellOf pa r)) :
    ∀ r ∈ (coerceCol df c).rows, P ((coerceCol df c).cellOf pa r) := by
  cases c with
  | none => exact h
  | some cn =>
    unfold coerceCol
    cases hcj : df.colIdx cn with
    | none => simp only [hcj]; exact h
    | some j' =>
      simp only [hcj]
      intro r hr
      rcases List.mem_map.mp hr with ⟨r0, hr0, rfl⟩
      unfold DF.cellOf DF.colIdx
      cases hpj : df.cols.findIdx? (· = pa) with
      | none =>
        have := h r0 hr0
        unfold DF.cellOf DF.colIdx at this
        rwa [hpj] at this
      | some j =>
        have hne' : j ≠ j' := by
          intro he
          apply hne cn rfl
          rw [← colIdx_getD (show df.colIdx pa = some j from hpj),
            ← colIdx_getD (show df.colIdx cn = some j' from hcj), he]
        have := h r0 hr0
        unfold DF.cellOf DF.colIdx at this
        rw [hpj] at this
        show P ((listModify toNumericVal j' r0).getD j Value.missing)
        rw [listModify_getD_ne hne']
        exact this

theorem coerceStage_cell_invariant {df : DF} (cm : ColMap) {pa : String}
    (P : Value → Prop)
    (hne1 : ∀ cn, cm.price = some cn → pa ≠ cn)
    (hne2 : ∀ cn, cm.competitor_price = some cn → pa ≠ cn)
    (hne3 : ∀ cn, cm.cost = some cn → pa ≠ cn)
    (hne4 : ∀ cn, cm.units = some cn → pa ≠ cn)
    (h : ∀ r ∈ df.rows, P (df.cellOf pa r)) :
    ∀ r ∈ (coerceStage df cm).rows, P ((coerceStage df cm).cellOf pa r) :=
  coerceCol_cell_invariant _ P hne4
    (coerceCol_cell_invariant _ P hne3
      (coerceCol_cell_invariant _ P hne2 (coerceCol_cell_invariant _ P hne1 h)))

theorem part_alias_ne_numeric {pa cn : String}
    (hpa : pa ∈ ["Part_Name", "Part", "Part_ID", "PartName"])
    (hcn : cn ∈ ["Price", "price", "Unit_Price"] ∨
      cn ∈ ["Competitor_Price", "competitor_price", "Comp_Price", "Competitor price"] ∨
      cn ∈ ["Cost", "cost", "Unit_Cost"] ∨
      cn ∈ ["Units_Sold", "Units", "Quantity", "units_sold"]) : pa ≠ cn := by
  simp only [List.mem_cons, List.not_mem_nil, or_false] at hpa hcn
  rcases hpa with rfl | rfl | rfl | rfl <;>
    rcases hcn with (rfl | rfl | rfl) | (rfl | rfl | rfl | rfl) |
      (rfl | rfl | rfl) | (rfl | rfl | rfl | rfl) <;>
    decide

/-! ### Run-level lemmas -/

theorem exportFiles_mem_clean (cm : ColMap) : cleanName ∈ exportFiles cm := by
  unfold exportFiles
  simp

theorem present_ne_nil (cm : ColMap) :
    manifestList.filter (fun f => decide (f ∈ exportFiles cm)) ≠ [] :=
  List.ne_nil_of_mem
    (List.mem_filter.mpr ⟨by simp [manifestList], decide_eq_true (exportFiles_mem_clean cm)⟩)

theorem runExports_exit (df : DF) (cm : ColMap) :
    (runExports df cm).exit = if (analyticsOutcome df).1 = true then 0 else 1 := by
  unfold runExports
  rw [if_neg (present_ne_nil cm)]
  by_cases hoc : (analyticsOutcome df).1 = true
  · rw [if_pos hoc, if_pos hoc]
  · rw [if_neg hoc, if_neg hoc]

theorem runExports_entered (df : DF) (cm : ColMap) :
    (runExports df cm).enteredExtra = true := by
  unfold runExports
  rw [if_neg (present_ne_nil cm)]
  by_cases hoc : (analyticsOutcome df).1 = true
  · rw [if_pos hoc]
  · rw [if_neg hoc]

theorem runExports_cleaned (df : DF) (cm : ColMap) :
    (runExports df cm).cleaned = some df := by
  unfold runExports
  rw [if_neg (present_ne_nil cm)]
  by_cases hoc : (analyticsOutcome df).1 = true
  · rw [if_pos hoc]
  · rw [if_neg hoc]

theorem runExports_top20 (df : DF) (cm : ColMap) :
    (runExports df cm).top20 = some (topRevenueStage df) := by
  unfold runExports
  rw [if_neg (present_ne_nil cm)]
  by_cases hoc : (analyticsOutcome df).1 = true
  · rw [if_pos hoc]
  · rw [if_neg hoc]

theorem runExports_overpriced (df : DF) (cm : ColMap) :
    (runExports df cm).overpriced =
      (match cm.competitor_price with
       | some _ => some (overpricedStage df)
       | none => none) := by
  unfold runExports
  rw [if_neg (present_ne_nil cm)]
  by_cases hoc : (analyticsOutcome df).1 = true
  · rw [if_pos hoc]
  · rw [if_neg hoc]

theorem runExports_lowMargin (df : DF) (cm : ColMap) :
    (runExports df cm).lowMargin =
      (match cm.cost, cm.units with
       | some _, some unn => some (lowMarginStage df unn)
       | _, _ => none) := by
  unfold runExports
  rw [if_neg (present_ne_nil cm)]
  by_cases hoc : (analyticsOutcome df).1 = true
  · rw [if_pos hoc]
  · rw [if_neg hoc]

theorem runExports_msgs (df : DF) (cm : ColMap) :
    (runExports df cm).msgs = skipMsgs cm := by
  unfold runExports
  rw [if_neg (present_ne_nil cm)]
  by_cases hoc : (analyticsOutcome df).1 = true
  · rw [if_pos hoc]
  · rw [if_neg hoc]

theorem runExports_written (df : DF) (cm : ColMap) :
    ∃ extra, (runExports df cm).written = exportFiles cm ++ extra ∧
      ∀ f ∈ extra, f = top10Name := by
  unfold runExports
  rw [if_neg (present_ne_nil cm)]
  by_cases hoc : (analyticsOutcome df).1 = true
  · rw [if_pos hoc]
    refine ⟨_, rfl, ?_⟩
    intro f hf
    rcases List.mem_map.mp hf with ⟨g, _, rfl⟩
    rfl
  · rw [if_neg hoc]
    refine ⟨_, rfl, ?_⟩
    intro f hf
    by_cases h2 : (analyticsOutcome df).2 = true
    · rw [if_pos h2] at hf
      simpa using hf
    · rw [if_neg h2] at hf
      simp at hf

theorem runScript_resolved {df0 : DF} {pr pa : String}
    (hpr : (buildColMap (stripStage df0)).price = some pr)
    (hpa : (buildColMap (stripStage df0)).part = some pa) :
    runScript true df0 =
      runExports
        (deriveStage (cleanedTable df0 (buildColMap (stripStage df0)) pr pa)
          (buildColMap (stripStage df0)))
        (buildColMap (stripStage df0)) := by
  unfold runScript
  simp [hpr, hpa]

theorem runScript_fatal1 (df0 : DF) :
    runScript false df0 = { exit := 1, written := [], msgs := [msgFileNotFound] } := rfl

theorem runScript_fatal2 {df0 : DF}
    (h : (buildColMap (stripStage df0)).price = none ∨
      (buildColMap (stripStage df0)).part = none) :
    runScript true df0 = { exit := 1, written := [], msgs := [msgMissingCols] } := by
  unfold runScript
  rcases h with h | h
  · simp [h]
  · cases hp : (buildColMap (stripStage df0)).price with
    | none => simp [hp]
    | some pr => simp [hp, h]

/-! ### Extract characterizations -/

theorem descKeyRel_eq_of_cols {df df' : DF} (h : df.cols = df'.cols) (n : String) :
    descKeyRel df n = descKeyRel df' n := by
  funext a b
  unfold descKeyRel
  rw [cellOf_eq_of_cols h n a, cellOf_eq_of_cols h n b]

theorem vlt_right_not_NA {a b : Value} (h : Value.vlt a b = true) : b.isNA = false := by
  cases a <;> cases b <;> simp_all [Value.vlt, Value.isNA]

theorem vle_right_not_NA {a b : Value} (h : Value.vle a b = true) : b.isNA = false := by
  cases a <;> cases b <;> simp_all [Value.vle, Value.vlt, Value.isNA]

theorem overpricedStage_spec (df : DF) :
    (∀ r, r ∈ (overpricedStage df).rows ↔
      r ∈ df.rows ∧ Value.vlt (.num 10) (df.cellOf "Price_pct_diff" r) = true) ∧
    (overpricedStage df).rows.Pairwise
      (fun a b => Value.sortLE (df.cellOf "Price_pct_diff" b)
        (df.cellOf "Price_pct_diff" a) = true) := by
  unfold overpricedStage
  constructor
  · intro r
    rw [mem_sortValuesDesc]
    unfold filterRows
    simp [List.mem_filter]
  · have hs := sortValuesDesc_sorted
      (filterRows df (fun r => Value.vlt (.num 10) (df.cellOf "Price_pct_diff" r))) "Price_pct_diff"
    refine hs.imp_of_mem ?_
    intro a b ha hb hab
    have hbm := mem_sortValuesDesc.mp hb
    have hbp := List.of_mem_filter hbm
    have hbNA : (df.cellOf "Price_pct_diff" b).isNA = false := vlt_right_not_NA hbp
    rcases hab with h | ⟨-, h⟩
    · have h' : (df.cellOf "Price_pct_diff" b).isNA = true := h
      rw [h'] at hbNA
      exact absurd hbNA (by simp)
    · exact h

theorem lowMarginStage_spec (df : DF) (unn : String) :
    (∀ r, r ∈ (lowMarginStage df unn).rows ↔
      r ∈ df.rows ∧
        Value.vle (df.cellOf "Margin" r) (quantileCol df "Margin" (1 / 4)) = true ∧
        Value.vle (quantileCol df unn (3 / 4)) (df.cellOf unn r) = true) ∧
    (lowMarginStage df unn).rows.Pairwise
      (fun a b => Value.sortLE (df.cellOf unn b) (df.cellOf unn a) = true) := by
  unfold lowMarginStage
  constructor
  · intro r
    rw [mem_sortValuesDesc]
    unfold filterRows
    simp [List.mem_filter, Bool.and_eq_true, and_assoc]
  · have hs := sortValuesDesc_sorted
      (filterRows df (fun r =>
        Value.vle (df.cellOf "Margin" r) (quantileCol df "Margin" (1 / 4)) &&
          Value.vle (quantileCol df unn (3 / 4)) (df.cellOf unn r))) unn
    refine hs.imp_of_mem ?_
    intro a b ha hb hab
    have hbm := mem_sortValuesDesc.mp hb
    have hbp := List.of_mem_filter hbm
    simp only [Bool.and_eq_true] at hbp
    have hbNA : (df.cellOf unn b).isNA = false := vle_right_not_NA hbp.2
    rcases hab with h | ⟨-, h⟩
    · have h' : (df.cellOf unn b).isNA = true := h
      rw [h'] at hbNA
      exact absurd hbNA (by simp)
    · exact h

/-! ### Composite-pipeline helpers -/

theorem topRevenueStage_rows (df : DF) :
    (topRevenueStage df).rows = (sortValuesDesc df (revColOf df)).rows.take 20 := rfl

theorem cleanedOf_wf {df0 : DF} (pr pa : String) (hwf : WF df0) :
    WF (cleanedOf df0 pr pa) :=
  WF_cleanedTable _ _ _ hwf

theorem cleanedOf_fresh {df0 : DF} (pr pa : String) (hfr : FreshDerived df0) :
    FreshDerived (cleanedOf df0 pr pa) :=
  FreshDerived_of_cols (cleanedTable_cols df0 _ pr pa) hfr

theorem cleanedOf_resolved (df0 : DF) (pr pa : String) :
    resolvedIn (cleanedOf df0 pr pa) (colMapOf df0) = true :=
  buildColMap_resolvedIn ((cleanedTable_cols df0 _ pr pa).trans rfl)

theorem derivedOf_spec {df0 : DF} {pr : String} (pa : String)
    (hwf : WF df0) (hfr : FreshDerived df0) (hpr : (colMapOf df0).price = some pr) :
    (derivedOf df0 pr pa).cols = (cleanedOf df0 pr pa).cols ++ derivedNames ∧
    WF (derivedOf df0 pr pa) ∧
    (derivedOf df0 pr pa).rows =
      (cleanedOf df0 pr pa).rows.map
        (deriveRow (cleanedOf df0 pr pa) (colMapOf df0) pr) := by
  unfold derivedOf
  exact deriveStage_spec (cleanedOf_wf pr pa hwf) (cleanedOf_fresh pr pa hfr)
    (cleanedOf_resolved df0 pr pa) hpr

theorem derivedOf_nodup {df0 : DF} {pr : String} (pa : String)
    (hwf : WF df0) (hfr : FreshDerived df0) (hpr : (colMapOf df0).price = some pr) :
    (derivedOf df0 pr pa).rows.Nodup := by
  have wfc := cleanedOf_wf pr pa hwf
  rw [(derivedOf_spec pa hwf hfr hpr).2.2]
  refine List.Nodup.map_on ?_ (cleanedTable_nodup df0 _ pr pa)
  intro x hx y hy h
  have key : ∀ z : List Value, z.length = (cleanedOf df0 pr pa).cols.length →
      (deriveRow (cleanedOf df0 pr pa) (colMapOf df0) pr z).take
        (cleanedOf df0 pr pa).cols.length = z := by
    intro z hz
    unfold deriveRow
    rw [← hz]
    exact List.take_left _ _
  rw [← key x (wfc.2 x hx), ← key y (wfc.2 y hy), h]

/-! ## Claim theorems -/

/-- C4 (amended): for every well-formed input table whose price and part
columns resolve *and whose columns do not already use one of the four
derived names*, the cleaned table has no two fully identical rows and
every retained row has non-missing price and part cells; the
metric-derivation stage, which then only appends per-row functions of the
existing columns, preserves both properties.  The freshness hypothesis is
necessary — the original "every input table" reading is refuted by the
counterexample below, where the derivation overwrites an existing `Margin`
column and creates a duplicate pair. -/
theorem C4_clean_invariants (df0 : DF) (pr pa : String)
    (hwf : WF df0) (hfr : FreshDerived df0)
    (hpr : (colMapOf df0).price = some pr) (hpa : (colMapOf df0).part = some pa) :
    ((cleanedOf df0 pr pa).rows.Nodup ∧
      ∀ r ∈ (cleanedOf df0 pr pa).rows,
        ((cleanedOf df0 pr pa).cellOf pr r).isNA = false ∧
          ((cleanedOf df0 pr pa).cellOf pa r).isNA = false) ∧
    ((derivedOf df0 pr pa).rows.Nodup ∧
      ∀ r' ∈ (derivedOf df0 pr pa).rows,
        ((derivedOf df0 pr pa).cellOf pr r').isNA = false ∧
          ((derivedOf df0 pr pa).cellOf pa r').isNA = false) := by
  have wfc : WF (cleanedOf df0 pr pa) := cleanedOf_wf pr pa hwf
  have hfr' : FreshDerived (cleanedOf df0 pr pa) := cleanedOf_fresh pr pa hfr
  have hres := cleanedOf_resolved df0 pr pa
  have hfields := resolvedIn_fields hres
  refine ⟨⟨cleanedTable_nodup df0 _ pr pa, fun r hr => cleanedTable_rows_nonNA hr⟩,
    derivedOf_nodup pa hwf hfr hpr, ?_⟩
  intro r' hr'
  rw [(derivedOf_spec pa hwf hfr hpr).2.2] at hr'
  rcases List.mem_map.mp hr' with ⟨r, hr, rfl⟩
  unfold derivedOf
  rw [derived_cellOf_orig wfc hfr' hres hpr (hfields.1 pr hpr) (wfc.2 r hr),
    derived_cellOf_orig wfc hfr' hres hpr (hfields.2.2.2.2 pa hpa) (wfc.2 r hr)]
  exact cleanedTable_rows_nonNA hr

/-- Witness for C4 at the concrete table `wDF`. -/
theorem C4_witness :
    (WF wDF ∧ FreshDerived wDF ∧
      (colMapOf wDF).price = some "Price" ∧ (colMapOf wDF).part = some "Part_Name") ∧
    (((cleanedOf wDF "Price" "Part_Name").rows.Nodup ∧
      ∀ r ∈ (cleanedOf wDF "Price" "Part_Name").rows,
        ((cleanedOf wDF "Price" "Part_Name").cellOf "Price" r).isNA = false ∧
          ((cleanedOf wDF "Price" "Part_Name").cellOf "Part_Name" r).isNA = false) ∧
    ((derivedOf wDF "Price" "Part_Name").rows.Nodup ∧
      ∀ r' ∈ (derivedOf wDF "Price" "Part_Name").rows,
        ((derivedOf wDF "Price" "Part_Name").cellOf "Price" r').isNA = false ∧
          ((derivedOf wDF "Price" "Part_Name").cellOf "Part_Name" r').isNA = false)) :=
  ⟨⟨by decide, by decide, by decide, by decide⟩,
    C4_clean_invariants wDF "Price" "Part_Name" (by decide) (by decide) (by decide) (by decide)⟩

/-- Counterexample to C4 as stated ("for every input table"): `dupDF`
already has a `Margin` column and no cost column, so line 79 overwrites
`Margin` with the scalar missing value on every row; its two rows differ
only in the original `Margin` cell, both survive duplicate removal and the
missing-row filter, and after the derivation stage they are fully
identical — the derived table contains a duplicate pair. -/
theorem C4_counterexample :
    WF dupDF ∧
    (colMapOf dupDF).price = some "Price" ∧ (colMapOf dupDF).part = some "Part_Name" ∧
    (cleanedOf dupDF "Price" "Part_Name").rows.Nodup ∧
    ¬ (derivedOf dupDF "Price" "Part_Name").rows.Nodup := by
  decide

/-- C10: duplicate removal keeps the first occurrence of each group of
fully identical rows and deletes only the later occurrences (the retained
rows are pairwise ordered by the index of their first occurrence, form a
sublist of — hence appear in the same relative order as — the typed table,
each row of the typed table still occurs, and no duplicates remain); the
typed table is a per-row image of the loaded table (strip and coercion map
rows in place, never reordering), and the later missing-row filter also
only removes rows, so the fully cleaned table is still a sublist. -/
theorem C10_dedup_first_order (df0 : DF) (pr pa : String) :
    (dedupStage (coerceStage (stripStage df0) (colMapOf df0))).rows <+
        (coerceStage (stripStage df0) (colMapOf df0)).rows ∧
    (∀ a, a ∈ (dedupStage (coerceStage (stripStage df0) (colMapOf df0))).rows ↔
        a ∈ (coerceStage (stripStage df0) (colMapOf df0)).rows) ∧
    (dedupStage (coerceStage (stripStage df0) (colMapOf df0))).rows.Nodup ∧
    (dedupStage (coerceStage (stripStage df0) (colMapOf df0))).rows.Pairwise
      (firstBefore (coerceStage (stripStage df0) (colMapOf df0)).rows) ∧
    (∃ t, (coerceStage (stripStage df0) (colMapOf df0)).rows = df0.rows.map t) ∧
    (cleanedOf df0 pr pa).rows <+ (coerceStage (stripStage df0) (colMapOf df0)).rows := by
  refine ⟨dedupFirst_sublist _, fun a => mem_dedupFirst, nodup_dedupFirst _,
    dedupFirst_pairwise_indexOf _, ?_, ?_⟩
  · obtain ⟨g, hg⟩ := coerceStage_rows_map (stripStage df0) (colMapOf df0)
    refine ⟨g ∘ stripRow df0.dtypes, ?_⟩
    rw [hg, show (stripStage df0).rows = df0.rows.map (stripRow df0.dtypes) from rfl,
      List.map_map]
  · exact (List.filter_sublist _).trans (dedupFirst_sublist _)

/-- C9: on an object-dtype column, the trimming step turns every cell into
a non-missing string — a missing cell becomes the literal string "nan" — so
when the resolved part column is object-typed, every row still has a
non-missing part cell when the missing-row filter runs, and that filter
therefore only tests the price column. -/
theorem C9_nan_string_part (df0 : DF) (pr pa : String)
    (hwf : WF df0)
    (hpr : (colMapOf df0).price = some pr) (hpa : (colMapOf df0).part = some pa)
    (hdt : df0.dtypeOf pa = some .obj) :
    (astypeStrStrip .missing = .str "nan" ∧ ∀ v, (astypeStrStrip v).isNA = false) ∧
    (∀ r ∈ (dedupStage (coerceStage (stripStage df0) (colMapOf df0))).rows,
      ((dedupStage (coerceStage (stripStage df0) (colMapOf df0))).cellOf pa r).isNA = false) ∧
    (cleanedOf df0 pr pa).rows =
      (dedupStage (coerceStage (stripStage df0) (colMapOf df0))).rows.filter
        (fun r =>
          !((dedupStage (coerceStage (stripStage df0) (colMapOf df0))).cellOf pr r).isNA) := by
  obtain ⟨j, hj, hget⟩ : ∃ j, df0.colIdx pa = some j ∧ df0.dtypes.get? j = some .obj := by
    unfold DF.dtypeOf at hdt
    cases hj : df0.colIdx pa with
    | none => rw [hj] at hdt; simp at hdt
    | some j =>
      rw [hj] at hdt
      exact ⟨j, rfl, hdt⟩
  have hgetD : df0.dtypes.getD j .num = .obj := by
    rw [List.getD_eq_getElem?_getD, ← List.get?_eq_getElem?, hget]
    rfl
  have step1 : ∀ r ∈ (stripStage df0).rows,
      (((stripStage df0).cellOf pa r).isNA = false) :=
    stripStage_cell_obj hwf hj hgetD
  have hpamem : pa ∈ ["Part_Name", "Part", "Part_ID", "PartName"] :=
    find_col_mem hpa
  have step2 : ∀ r ∈ (coerceStage (stripStage df0) (colMapOf df0)).rows,
      (((coerceStage (stripStage df0) (colMapOf df0)).cellOf pa r).isNA = false) := by
    refine coerceStage_cell_invariant _ (fun v => v.isNA = false) ?_ ?_ ?_ ?_ step1
    · intro cn hcn
      exact part_alias_ne_numeric hpamem (Or.inl (find_col_mem hcn))
    · intro cn hcn
      exact part_alias_ne_numeric hpamem (Or.inr (Or.inl (find_col_mem hcn)))
    · intro cn hcn
      exact part_alias_ne_numeric hpamem (Or.inr (Or.inr (Or.inl (find_col_mem hcn))))
    · intro cn hcn
      exact part_alias_ne_numeric hpamem (Or.inr (Or.inr (Or.inr (find_col_mem hcn))))
  have step3 : ∀ r ∈ (dedupStage (coerceStage (stripStage df0) (colMapOf df0))).rows,
      (((dedupStage (coerceStage (stripStage df0) (colMapOf df0))).cellOf pa r).isNA
        = false) :=
    rows_prop_sublist
      (show (dedupStage (coerceStage (stripStage df0) (colMapOf df0))).cols =
        (coerceStage (stripStage df0) (colMapOf df0)).cols from rfl)
      (dedupFirst_sublist _) (fun v => v.isNA = false) step2
  refine ⟨⟨rfl, astypeStrStrip_not_NA⟩, step3, ?_⟩
  show List.filter _ _ = List.filter _ _
  refine List.filter_congr ?_
  intro r hr
  rw [step3 r hr]
  simp

/-- Witness for C9 at the concrete table `wDF` (whose part column is
object-typed and contains a missing cell that survives cleaning as the
string "nan"). -/
theorem C9_witness :
    (WF wDF ∧ (colMapOf wDF).price = some "Price" ∧
      (colMapOf wDF).part = some "Part_Name" ∧ wDF.dtypeOf "Part_Name" = some .obj) ∧
    ((astypeStrStrip .missing = .str "nan" ∧ ∀ v, (astypeStrStrip v).isNA = false) ∧
    (∀ r ∈ (dedupStage (coerceStage (stripStage wDF) (colMapOf wDF))).rows,
      ((dedupStage (coerceStage (stripStage wDF) (colMapOf wDF))).cellOf "Part_Name" r).isNA
        = false) ∧
    (cleanedOf wDF "Price" "Part_Name").rows =
      (dedupStage (coerceStage (stripStage wDF) (colMapOf wDF))).rows.filter
        (fun r =>
          !((dedupStage (coerceStage (stripStage wDF) (colMapOf wDF))).cellOf "Price" r).isNA)) :=
  ⟨⟨by decide, by decide, by decide, by decide⟩,
    C9_nan_string_part wDF "Price" "Part_Name" (by decide) (by decide) (by decide) (by decide)⟩

/-- C3 (amended): the top-20-by-revenue extract is the 20-row prefix of an
output of `sort_values(by=rev_col, ascending=False)`, whose default
`kind='quicksort'` (numpy introsort) guarantees a permutation of the
cleaned rows sorted descending by the chosen revenue source (an existing
`Revenue`/`revenue` column if present, else `Revenue_calc`) with missing
keys last — but no particular order among rows with equal keys.  Hence for
every output the sort may produce: the extract has at most 20 rows, every
extract row is a row of the cleaned table, and the extract is sorted
descending.  The original claim's stable-ties conjunct is not a program
guarantee (see the counterexample); the executable model realizes one
contract-satisfying permutation. -/
theorem C3_top_revenue (df0 : DF) (pr pa : String) :
    sortDescSpec (derivedOf df0 pr pa) (revColOf (derivedOf df0 pr pa))
      (sortValuesDesc (derivedOf df0 pr pa) (revColOf (derivedOf df0 pr pa))).rows ∧
    (∀ l, sortDescSpec (derivedOf df0 pr pa) (revColOf (derivedOf df0 pr pa)) l →
      (l.take 20).length ≤ 20 ∧
      (∀ r ∈ l.take 20, r ∈ (derivedOf df0 pr pa).rows) ∧
      (l.take 20).Pairwise
        (descKeyRel (derivedOf df0 pr pa) (revColOf (derivedOf df0 pr pa)))) ∧
    (topRevenueStage (derivedOf df0 pr pa)).rows =
      (sortValuesDesc (derivedOf df0 pr pa) (revColOf (derivedOf df0 pr pa))).rows.take 20 := by
  refine ⟨⟨sortValuesDesc_perm _ _, sortValuesDesc_sorted _ _⟩, ?_, topRevenueStage_rows _⟩
  intro l hl
  refine ⟨?_, ?_, ?_⟩
  · rw [List.length_take]
    exact Nat.min_le_left _ _
  · intro r hr
    exact hl.1.subset (List.take_subset _ _ hr)
  · exact List.Pairwise.sublist (List.take_sublist _ _) hl.2

/-- Counterexample to C3 as stated: the stable-ties conjunct does not
follow from what the source's sort guarantees.  `ctSwapped` satisfies the
full contract of `sort_values(by='Revenue_calc', ascending=False)` on
`ctDF` — a descending-sorted permutation of the rows — yet its two
equal-revenue rows sit in the opposite of their original relative order,
and both lie inside the 20-row prefix the extract takes. -/
theorem C3_counterexample :
    sortDescSpec ctDF (revColOf ctDF) ctSwapped ∧
    ctDF.cellOf (revColOf ctDF) [.str "A", .num 60] =
      ctDF.cellOf (revColOf ctDF) [.str "B", .num 60] ∧
    [[.str "A", .num 60], [.str "B", .num 60]] <+ ctDF.rows ∧
    [.str "A", .num 60] ∈ ctSwapped.take 20 ∧
    [.str "B", .num 60] ∈ ctSwapped.take 20 ∧
    ¬ [[.str "A", .num 60], [.str "B", .num 60]] <+ ctSwapped.take 20 := by
  decide

/-- Witness for C3 (amended) at the concrete table `wDF`: the contract
hypothesis of the universally quantified part is discharged with the
model's own sorted permutation, the theorem's first conjunct. -/
theorem C3_witness :
    (topRevenueStage (derivedOf wDF "Price" "Part_Name")).rows.length ≤ 20 ∧
    (∀ r ∈ (topRevenueStage (derivedOf wDF "Price" "Part_Name")).rows,
      r ∈ (derivedOf wDF "Price" "Part_Name").rows) ∧
    (topRevenueStage (derivedOf wDF "Price" "Part_Name")).rows.Pairwise
      (descKeyRel (derivedOf wDF "Price" "Part_Name")
        (revColOf (derivedOf wDF "Price" "Part_Name"))) := by
  have h := C3_top_revenue wDF "Price" "Part_Name"
  have h2 := h.2.1 _ h.1
  rw [h.2.2]
  exact h2

/-- C5: the four derived columns are attached to every row of the cleaned
table; on a row whose source cells are resolved and numeric they satisfy
`Price_diff = price - competitor_price`,
`Price_pct_diff = Price_diff / competitor_price * 100` (for a non-zero
competitor price; at zero the code produces the float division artefacts),
`Margin = price - cost` and `Revenue_calc = price * units`; and when a
source column is unresolved the derived cells are absent on every row. -/
theorem C5_derived_metrics (df0 : DF) (pr pa : String)
    (hwf : WF df0) (hfr : FreshDerived df0)
    (hpr : (colMapOf df0).price = some pr) (hpa : (colMapOf df0).part = some pa) :
    (derivedOf df0 pr pa).cols = (cleanedOf df0 pr pa).cols ++ derivedNames ∧
    (derivedOf df0 pr pa).rows =
      (cleanedOf df0 pr pa).rows.map (deriveRow (cleanedOf df0 pr pa) (colMapOf df0) pr) ∧
    ∀ r ∈ (cleanedOf df0 pr pa).rows,
      (∀ cpn p c, (colMapOf df0).competitor_price = some cpn →
        (cleanedOf df0 pr pa).cellOf pr r = .num p →
        (cleanedOf df0 pr pa).cellOf cpn r = .num c →
        (derivedOf df0 pr pa).cellOf "Price_diff"
            (deriveRow (cleanedOf df0 pr pa) (colMapOf df0) pr r) = .num (p - c) ∧
        (c ≠ 0 →
          (derivedOf df0 pr pa).cellOf "Price_pct_diff"
            (deriveRow (cleanedOf df0 pr pa) (colMapOf df0) pr r) =
              .num ((p - c) / c * 100))) ∧
      (∀ con p k, (colMapOf df0).cost = some con →
        (cleanedOf df0 pr pa).cellOf pr r = .num p →
        (cleanedOf df0 pr pa).cellOf con r = .num k →
        (derivedOf df0 pr pa).cellOf "Margin"
          (deriveRow (cleanedOf df0 pr pa) (colMapOf df0) pr r) = .num (p - k)) ∧
      (∀ unn p u, (colMapOf df0).units = some unn →
        (cleanedOf df0 pr pa).cellOf pr r = .num p →
        (cleanedOf df0 pr pa).cellOf unn r = .num u →
        (derivedOf df0 pr pa).cellOf "Revenue_calc"
          (deriveRow (cleanedOf df0 pr pa) (colMapOf df0) pr r) = .num (p * u)) ∧
      ((colMapOf df0).competitor_price = none →
        (derivedOf df0 pr pa).cellOf "Price_diff"
            (deriveRow (cleanedOf df0 pr pa) (colMapOf df0) pr r) = .missing ∧
        (derivedOf df0 pr pa).cellOf "Price_pct_diff"
          (deriveRow (cleanedOf df0 pr pa) (colMapOf df0) pr r) = .missing) ∧
      ((colMapOf df0).cost = none →
        (derivedOf df0 pr pa).cellOf "Margin"
          (deriveRow (cleanedOf df0 pr pa) (colMapOf df0) pr r) = .missing) ∧
      ((colMapOf df0).units = none →
        (derivedOf df0 pr pa).cellOf "Revenue_calc"
          (deriveRow (cleanedOf df0 pr pa) (colMapOf df0) pr r) = .missing) := by
  have wfc := cleanedOf_wf pr pa hwf
  have hfr' := cleanedOf_fresh pr pa hfr
  have hres := cleanedOf_resolved df0 pr pa
  have spec := derivedOf_spec pa hwf hfr hpr
  refine ⟨spec.1, spec.2.2, ?_⟩
  intro r hr
  have hl : r.length = (cleanedOf df0 pr pa).cols.length := wfc.2 r hr
  have epd := derived_cellOf_pdiff wfc hfr' hres hpr hl
  have epct := derived_cellOf_pct wfc hfr' hres hpr hl
  have emg := derived_cellOf_margin wfc hfr' hres hpr hl
  have erv := derived_cellOf_rev wfc hfr' hres hpr hl
  refine ⟨?_, ?_, ?_, ?_, ?_, ?_⟩
  · intro cpn p c hcp hp hc
    constructor
    · show (derivedOf df0 pr pa).cellOf "Price_diff" _ = _
      unfold derivedOf
      rw [epd]
      simp [pdiffCell, hcp, hp, hc, Value.vsub]
    · intro hc0
      show (derivedOf df0 pr pa).cellOf "Price_pct_diff" _ = _
      unfold derivedOf
      rw [epct, hcp]
      simp [pdiffCell, hcp, hp, hc, Value.vsub, Value.vdiv, Value.vmul, hc0]
  · intro con p k hco hp hk
    show (derivedOf df0 pr pa).cellOf "Margin" _ = _
    unfold derivedOf
    rw [emg]
    simp [marginCell, hco, hp, hk, Value.vsub]
  · intro unn p u hun hp hu
    show (derivedOf df0 pr pa).cellOf "Revenue_calc" _ = _
    unfold derivedOf
    rw [erv]
    simp [revCell, hun, hp, hu, Value.vmul]
  · intro hcp
    constructor
    · show (derivedOf df0 pr pa).cellOf "Price_diff" _ = _
      unfold derivedOf
      rw [epd]
      simp [pdiffCell, hcp]
    · show (derivedOf df0 pr pa).cellOf "Price_pct_diff" _ = _
      unfold derivedOf
      rw [epct, hcp]
  · intro hco
    show (derivedOf df0 pr pa).cellOf "Margin" _ = _
    unfold derivedOf
    rw [emg]
    simp [marginCell, hco]
  · intro hun
    show (derivedOf df0 pr pa).cellOf "Revenue_calc" _ = _
    unfold derivedOf
    rw [erv]
    simp [revCell, hun]

/-- Witness for C5 at the concrete table `wDF`, including the spec's two
worked examples: the cleaned row with price 120 and competitor price 100
gets `Price_diff` 20 and `Price_pct_diff` 20, and the cleaned row with
price 50, cost 30 and units 4 gets `Margin` 20 and `Revenue_calc` 200. -/
theorem C5_witness :
    (WF wDF ∧ FreshDerived wDF ∧
      (colMapOf wDF).price = some "Price" ∧ (colMapOf wDF).part = some "Part_Name") ∧
    ((derivedOf wDF "Price" "Part_Name").cols =
        (cleanedOf wDF "Price" "Part_Name").cols ++ derivedNames ∧
      (derivedOf wDF "Price" "Part_Name").rows =
        (cleanedOf wDF "Price" "Part_Name").rows.map
          (deriveRow (cleanedOf wDF "Price" "Part_Name") (colMapOf wDF) "Price") ∧
      ∀ r ∈ (cleanedOf wDF "Price" "Part_Name").rows,
        (∀ cpn p c, (colMapOf wDF).competitor_price = some cpn →
          (cleanedOf wDF "Price" "Part_Name").cellOf "Price" r = .num p →
          (cleanedOf wDF "Price" "Part_Name").cellOf cpn r = .num c →
          (derivedOf wDF "Price" "Part_Name").cellOf "Price_diff"
              (deriveRow (cleanedOf wDF "Price" "Part_Name") (colMapOf wDF) "Price" r) =
                .num (p - c) ∧
          (c ≠ 0 →
            (derivedOf wDF "Price" "Part_Name").cellOf "Price_pct_diff"
              (deriveRow (cleanedOf wDF "Price" "Part_Name") (colMapOf wDF) "Price" r) =
                .num ((p - c) / c * 100))) ∧
        (∀ con p k, (colMapOf wDF).cost = some con →
          (cleanedOf wDF "Price" "Part_Name").cellOf "Price" r = .num p →
          (cleanedOf wDF "Price" "Part_Name").cellOf con r = .num k →
          (derivedOf wDF "Price" "Part_Name").cellOf "Margin"
            (deriveRow (cleanedOf wDF "Price" "Part_Name") (colMapOf wDF) "Price" r) =
              .num (p - k)) ∧
        (∀ unn p u, (colMapOf wDF).units = some unn →
          (cleanedOf wDF "Price" "Part_Name").cellOf "Price" r = .num p →
          (cleanedOf wDF "Price" "Part_Name").cellOf unn r = .num u →
          (derivedOf wDF "Price" "Part_Name").cellOf "Revenue_calc"
            (deriveRow (cleanedOf wDF "Price" "Part_Name") (colMapOf wDF) "Price" r) =
              .num (p * u)) ∧
        ((colMapOf wDF).competitor_price = none →
          (derivedOf wDF "Price" "Part_Name").cellOf "Price_diff"
              (deriveRow (cleanedOf wDF "Price" "Part_Name") (colMapOf wDF) "Price" r) =
                .missing ∧
          (derivedOf wDF "Price" "Part_Name").cellOf "Price_pct_diff"
            (deriveRow (cleanedOf wDF "Price" "Part_Name") (colMapOf wDF) "Price" r) =
              .missing) ∧
        ((colMapOf wDF).cost = none →
          (derivedOf wDF "Price" "Part_Name").cellOf "Margin"
            (deriveRow (cleanedOf wDF "Price" "Part_Name") (colMapOf wDF) "Price" r) =
              .missing) ∧
        ((colMapOf wDF).units = none →
          (derivedOf wDF "Price" "Part_Name").cellOf "Revenue_calc"
            (deriveRow (cleanedOf wDF "Price" "Part_Name") (colMapOf wDF) "Price" r) =
              .missing)) ∧
    ((derivedOf wDF "Price" "Part_Name").cellOf "Price_diff"
        (deriveRow (cleanedOf wDF "Price" "Part_Name") (colMapOf wDF) "Price"
          ((cleanedOf wDF "Price" "Part_Name").rows.getD 0 [])) = .num 20 ∧
      (derivedOf wDF "Price" "Part_Name").cellOf "Price_pct_diff"
        (deriveRow (cleanedOf wDF "Price" "Part_Name") (colMapOf wDF) "Price"
          ((cleanedOf wDF "Price" "Part_Name").rows.getD 0 [])) = .num 20 ∧
      (derivedOf wDF "Price" "Part_Name").cellOf "Margin"
        (deriveRow (cleanedOf wDF "Price" "Part_Name") (colMapOf wDF) "Price"
          ((cleanedOf wDF "Price" "Part_Name").rows.getD 1 [])) = .num 20 ∧
      (derivedOf wDF "Price" "Part_Name").cellOf "Revenue_calc"
        (deriveRow (cleanedOf wDF "Price" "Part_Name") (colMapOf wDF) "Price"
          ((cleanedOf wDF "Price" "Part_Name").rows.getD 1 [])) = .num 200) := by
  have h := C5_derived_metrics wDF "Price" "Part_Name" (by decide) (by decide)
    (by decide) (by decide)
  refine ⟨⟨by decide, by decide, by decide, by decide⟩, h, ?_, ?_, ?_, ?_⟩
  · have e := ((h.2.2 ((cleanedOf wDF "Price" "Part_Name").rows.getD 0 []) (by decide)).1
      "Competitor_Price" 120 100 (by decide) (by decide) (by decide)).1
    rw [e]
    norm_num
  · have e := ((h.2.2 ((cleanedOf wDF "Price" "Part_Name").rows.getD 0 []) (by decide)).1
      "Competitor_Price" 120 100 (by decide) (by decide) (by decide)).2 (by norm_num)
    rw [e]
    norm_num
  · have e := (h.2.2 ((cleanedOf wDF "Price" "Part_Name").rows.getD 1 []) (by decide)).2.1
      "Cost" 50 30 (by decide) (by decide) (by decide)
    rw [e]
    norm_num
  · have e := (h.2.2 ((cleanedOf wDF "Price" "Part_Name").rows.getD 1 []) (by decide)).2.2.1
      "Units_Sold" 50 4 (by decide) (by decide) (by decide)
    rw [e]
    norm_num

/-- C7: on a run that passes the fatal guards, the over-priced extract is
written iff the competitor-price column resolved; when it resolved, the
extract consists exactly of the cleaned rows whose `Price_pct_diff` exceeds
10, sorted descending by `Price_pct_diff`; when it did not resolve, the
file is not produced and the `Price_diff`/`Price_pct_diff` cells are absent
on every row of the cleaned output. -/
theorem C7_overpriced (df0 : DF) (pr pa : String)
    (hwf : WF df0) (hfr : FreshDerived df0)
    (hpr : (colMapOf df0).price = some pr) (hpa : (colMapOf df0).part = some pa) :
    (runScript true df0).cleaned = some (derivedOf df0 pr pa) ∧
    (overpricedName ∈ (runScript true df0).written ↔
      (colMapOf df0).competitor_price ≠ none) ∧
    (∀ cpn, (colMapOf df0).competitor_price = some cpn →
      (runScript true df0).overpriced = some (overpricedStage (derivedOf df0 pr pa)) ∧
      (∀ r, r ∈ (overpricedStage (derivedOf df0 pr pa)).rows ↔
        r ∈ (derivedOf df0 pr pa).rows ∧
          Value.vlt (.num 10) ((derivedOf df0 pr pa).cellOf "Price_pct_diff" r) = true) ∧
      (overpricedStage (derivedOf df0 pr pa)).rows.Pairwise
        (fun a b => Value.sortLE ((derivedOf df0 pr pa).cellOf "Price_pct_diff" b)
          ((derivedOf df0 pr pa).cellOf "Price_pct_diff" a) = true)) ∧
    ((colMapOf df0).competitor_price = none →
      (runScript true df0).overpriced = none ∧
      ∀ r' ∈ (derivedOf df0 pr pa).rows,
        (derivedOf df0 pr pa).cellOf "Price_diff" r' = .missing ∧
          (derivedOf df0 pr pa).cellOf "Price_pct_diff" r' = .missing) := by
  have hrun : runScript true df0 = runExports (derivedOf df0 pr pa) (colMapOf df0) :=
    runScript_resolved hpr hpa
  have wfc := cleanedOf_wf pr pa hwf
  have hfr' := cleanedOf_fresh pr pa hfr
  have hres := cleanedOf_resolved df0 pr pa
  refine ⟨by rw [hrun]; exact runExports_cleaned _ _, ?_, ?_, ?_⟩
  · rw [hrun]
    obtain ⟨extra, hw, hextra⟩ := runExports_written (derivedOf df0 pr pa) (colMapOf df0)
    rw [hw]
    rw [List.mem_append]
    constructor
    · rintro (h | h)
      · intro hnone
        unfold exportFiles at h
        rw [hnone] at h
        cases hco : (colMapOf df0).cost <;> rw [hco] at h <;>
          cases hun : (colMapOf df0).units <;> rw [hun] at h <;>
          simp [cleanName, top20Name, overpricedName, lowMarginName, chartPriceName] at h
      · have := hextra _ h
        simp [overpricedName, top10Name] at this
    · intro h
      cases hcp : (colMapOf df0).competitor_price with
      | none => exact absurd hcp h
      | some cpn =>
        left
        unfold exportFiles
        rw [hcp]
        cases (colMapOf df0).cost <;> cases (colMapOf df0).units <;>
          simp [cleanName, top20Name, overpricedName, lowMarginName, chartPriceName,
            chartPctName]
  · intro cpn hcp
    refine ⟨by rw [hrun, runExports_overpriced, hcp], (overpricedStage_spec _).1,
      (overpricedStage_spec _).2⟩
  · intro hcp
    refine ⟨by rw [hrun, runExports_overpriced, hcp], ?_⟩
    intro r' hr'
    rw [(derivedOf_spec pa hwf hfr hpr).2.2] at hr'
    rcases List.mem_map.mp hr' with ⟨r, hr, rfl⟩
    have hl := wfc.2 r hr
    constructor
    · show (derivedOf df0 pr pa).cellOf "Price_diff" _ = _
      unfold derivedOf
      rw [derived_cellOf_pdiff wfc hfr' hres hpr hl]
      simp [pdiffCell, hcp]
    · show (derivedOf df0 pr pa).cellOf "Price_pct_diff" _ = _
      unfold derivedOf
      rw [derived_cellOf_pct wfc hfr' hres hpr hl, hcp]

/-- Witness for C7 at the concrete table `wDF` (competitor price resolves)
— the iff's positive direction — and the hypotheses are also discharged
for `noCpDF` in `C7`'s negative branch through the same theorem. -/
theorem C7_witness :
    ((WF wDF ∧ FreshDerived wDF ∧
      (colMapOf wDF).price = some "Price" ∧ (colMapOf wDF).part = some "Part_Name") ∧
      (colMapOf wDF).competitor_price = some "Competitor_Price" ∧
      overpricedName ∈ (runScript true wDF).written) ∧
    ((WF noCpDF ∧ FreshDerived noCpDF ∧
      (colMapOf noCpDF).price = some "Price" ∧ (colMapOf noCpDF).part = some "Part_Name") ∧
      (colMapOf noCpDF).competitor_price = none ∧
      (runScript true noCpDF).overpriced = none ∧
      overpricedName ∉ (runScript true noCpDF).written) := by
  have h1 := C7_overpriced wDF "Price" "Part_Name" (by decide) (by decide)
    (by decide) (by decide)
  have h2 := C7_overpriced noCpDF "Price" "Part_Name" (by decide) (by decide)
    (by decide) (by decide)
  refine ⟨⟨⟨by decide, by decide, by decide, by decide⟩, by decide, ?_⟩,
    ⟨by decide, by decide, by decide, by decide⟩, by decide, ?_, ?_⟩
  · exact h1.2.1.mpr (by decide)
  · exact (h2.2.2.2 (by decide)).1
  · intro hmem
    exact (h2.2.1.mp hmem) (by decide)

/-- C8: on a run that passes the fatal guards, the low-margin/high-sales
extract is written iff both the cost and the units columns resolved; when
both resolved, it consists exactly of the cleaned rows whose `Margin` is at
or below the 25th percentile of `Margin` over the whole cleaned table and
whose units cell is at or above the 75th percentile of units over the whole
cleaned table (two independent quantiles), sorted descending by units; when
either column is unresolved, the extract is not produced. -/
theorem C8_low_margin (df0 : DF) (pr pa : String)
    (hwf : WF df0) (hfr : FreshDerived df0)
    (hpr : (colMapOf df0).price = some pr) (hpa : (colMapOf df0).part = some pa) :
    (lowMarginName ∈ (runScript true df0).written ↔
      ((colMapOf df0).cost ≠ none ∧ (colMapOf df0).units ≠ none)) ∧
    (∀ cn unn, (colMapOf df0).cost = some cn → (colMapOf df0).units = some unn →
      (runScript true df0).lowMargin = some (lowMarginStage (derivedOf df0 pr pa) unn) ∧
      (∀ r, r ∈ (lowMarginStage (derivedOf df0 pr pa) unn).rows ↔
        r ∈ (derivedOf df0 pr pa).rows ∧
          Value.vle ((derivedOf df0 pr pa).cellOf "Margin" r)
            (quantileCol (derivedOf df0 pr pa) "Margin" (1 / 4)) = true ∧
          Value.vle (quantileCol (derivedOf df0 pr pa) unn (3 / 4))
            ((derivedOf df0 pr pa).cellOf unn r) = true) ∧
      (lowMarginStage (derivedOf df0 pr pa) unn).rows.Pairwise
        (fun a b => Value.sortLE ((derivedOf df0 pr pa).cellOf unn b)
          ((derivedOf df0 pr pa).cellOf unn a) = true)) ∧
    ((colMapOf df0).cost = none ∨ (colMapOf df0).units = none →
      (runScript true df0).lowMargin = none) := by
  have hrun : runScript true df0 = runExports (derivedOf df0 pr pa) (colMapOf df0) :=
    runScript_resolved hpr hpa
  refine ⟨?_, ?_, ?_⟩
  · rw [hrun]
    obtain ⟨extra, hw, hextra⟩ := runExports_written (derivedOf df0 pr pa) (colMapOf df0)
    rw [hw, List.mem_append]
    constructor
    · rintro (h | h)
      · unfold exportFiles at h
        cases hcp : (colMapOf df0).competitor_price <;> rw [hcp] at h <;>
          cases hco : (colMapOf df0).cost <;> rw [hco] at h <;>
          cases hun : (colMapOf df0).units <;> rw [hun] at h <;>
          simp [cleanName, top20Name, overpricedName, lowMarginName, chartPriceName,
            chartPctName] at h ⊢
      · have := hextra _ h
        simp [lowMarginName, top10Name] at this
    · rintro ⟨h1, h2⟩
      left
      unfold exportFiles
      cases hco : (colMapOf df0).cost with
      | none => exact absurd hco h1
      | some cn =>
        cases hun : (colMapOf df0).units with
        | none => exact absurd hun h2
        | some unn =>
          cases (colMapOf df0).competitor_price <;>
            simp [cleanName, top20Name, overpricedName, lowMarginName, chartPriceName,
              chartPctName]
  · intro cn unn hco hun
    refine ⟨by rw [hrun, runExports_lowMargin, hco, hun], (lowMarginStage_spec _ _).1,
      (lowMarginStage_spec _ _).2⟩
  · intro h
    rw [hrun, runExports_lowMargin]
    rcases h with h | h
    · rw [h]
    · rw [h]
      cases (colMapOf df0).cost <;> rfl

/-- Witness for C8 at the concrete table `wDF` (cost and units both
resolve) — the iff applied in its positive direction — and at `noCpDF`
(cost unresolved) for the negative branch, both through the theorem. -/
theorem C8_witness :
    ((WF wDF ∧ FreshDerived wDF ∧
      (colMapOf wDF).price = some "Price" ∧ (colMapOf wDF).part = some "Part_Name") ∧
      (colMapOf wDF).cost = some "Cost" ∧ (colMapOf wDF).units = some "Units_Sold" ∧
      lowMarginName ∈ (runScript true wDF).written) ∧
    ((WF noCpDF ∧ FreshDerived noCpDF ∧
      (colMapOf noCpDF).price = some "Price" ∧ (colMapOf noCpDF).part = some "Part_Name") ∧
      (colMapOf noCpDF).cost = none ∧
      (runScript true noCpDF).lowMargin = none ∧
      lowMarginName ∉ (runScript true noCpDF).written) := by
  have h1 := C8_low_margin wDF "Price" "Part_Name" (by decide) (by decide)
    (by decide) (by decide)
  have h2 := C8_low_margin noCpDF "Price" "Part_Name" (by decide) (by decide)
    (by decide) (by decide)
  refine ⟨⟨⟨by decide, by decide, by decide, by decide⟩, by decide, by decide, ?_⟩,
    ⟨by decide, by decide, by decide, by decide⟩, by decide, ?_, ?_⟩
  · exact h1.1.mpr ⟨by decide, by decide⟩
  · exact h2.2.2 (Or.inl (by decide))
  · intro hmem
    exact ((h2.1.mp hmem).1) (by decide)

/-- C6: on either fatal condition — the input file absent, or the price or
part-identifier column unresolved — the run prints a diagnostic, exits with
status 1, and writes no output file at all; on a run that passes both
guards, the pipeline continues by omission: the cleaned CSV, top-20 CSV and
price chart are always written, and an unresolved optional column only
yields its skip notice instead of an abort. -/
theorem C6_error_handling (df0 : DF) :
    ((runScript false df0).exit = 1 ∧ (runScript false df0).written = [] ∧
      msgFileNotFound ∈ (runScript false df0).msgs) ∧
    (((colMapOf df0).price = none ∨ (colMapOf df0).part = none) →
      (runScript true df0).exit = 1 ∧ (runScript true df0).written = [] ∧
      msgMissingCols ∈ (runScript true df0).msgs) ∧
    (∀ pr pa, (colMapOf df0).price = some pr → (colMapOf df0).part = some pa →
      cleanName ∈ (runScript true df0).written ∧
      top20Name ∈ (runScript true df0).written ∧
      chartPriceName ∈ (runScript true df0).written ∧
      ((colMapOf df0).competitor_price = none →
        msgSkipOverpriced ∈ (runScript true df0).msgs ∧
        msgSkipPctChart ∈ (runScript true df0).msgs) ∧
      (((colMapOf df0).cost = none ∨ (colMapOf df0).units = none) →
        msgSkipLowMargin ∈ (runScript true df0).msgs)) := by
  refine ⟨?_, ?_, ?_⟩
  · rw [runScript_fatal1]
    exact ⟨rfl, rfl, by simp⟩
  · intro h
    rw [runScript_fatal2 h]
    exact ⟨rfl, rfl, by simp⟩
  · intro pr pa hpr hpa
    have hrun : runScript true df0 = runExports (derivedOf df0 pr pa) (colMapOf df0) :=
      runScript_resolved hpr hpa
    obtain ⟨extra, hw, -⟩ := runExports_written (derivedOf df0 pr pa) (colMapOf df0)
    rw [hrun, runExports_msgs, hw]
    refine ⟨List.mem_append_left _ (exportFiles_mem_clean _),
      List.mem_append_left _ ?_, List.mem_append_left _ ?_, ?_, ?_⟩
    · unfold exportFiles
      simp
    · unfold exportFiles
      simp
    · intro hcp
      unfold skipMsgs
      rw [hcp]
      exact ⟨by simp, by simp⟩
    · intro h
      unfold skipMsgs
      rcases h with h | h
      · rw [h]
        simp
      · rw [h]
        cases (colMapOf df0).cost <;> simp

/-- Witness for C6: the missing-file case at `wDF`, the unresolved-price
case at `noPriceDF`, and the soft-skip case at `noCpDF` (competitor price
and cost unresolved), all through the theorem. -/
theorem C6_witness :
    ((runScript false wDF).exit = 1 ∧ (runScript false wDF).written = []) ∧
    ((colMapOf noPriceDF).price = none ∧
      (runScript true noPriceDF).exit = 1 ∧ (runScript true noPriceDF).written = [] ∧
      msgMissingCols ∈ (runScript true noPriceDF).msgs) ∧
    ((colMapOf noCpDF).competitor_price = none ∧ (colMapOf noCpDF).cost = none ∧
      cleanName ∈ (runScript true noCpDF).written ∧
      msgSkipOverpriced ∈ (runScript true noCpDF).msgs ∧
      msgSkipLowMargin ∈ (runScript true noCpDF).msgs) := by
  have h1 := C6_error_handling wDF
  have h2 := C6_error_handling noPriceDF
  have h3 := C6_error_handling noCpDF
  have h2f := h2.2.1 (Or.inl (by decide))
  have h3s := h3.2.2 "Price" "Part_Name" (by decide) (by decide)
  exact ⟨⟨h1.1.1, h1.1.2.1⟩,
    ⟨by decide, h2f.1, h2f.2.1, h2f.2.2⟩,
    by decide, by decide, h3s.1, (h3s.2.2.2.1 (by decide)).1,
    h3s.2.2.2.2 (Or.inl (by decide))⟩

/-- C1 (amended): the exit status is 1 when the file is absent or a
mandatory column is unresolved, and on a run that passes both guards it is
0 exactly when the extra-analytics section completes — which requires
`Brand`, `Revenue`, `Region`, `Gross_Margin_%` and `Profit` columns that
the pipeline itself never creates, so a well-formed input without them
still exits non-zero. -/
theorem C1_exit_codes (df0 : DF) :
    (runScript false df0).exit = 1 ∧
    (((colMapOf df0).price = none ∨ (colMapOf df0).part = none) →
      (runScript true df0).exit = 1) ∧
    (∀ pr pa, (colMapOf df0).price = some pr → (colMapOf df0).part = some pa →
      ((runScript true df0).exit = 0 ↔
        (analyticsOutcome (derivedOf df0 pr pa)).1 = true)) := by
  refine ⟨by rw [runScript_fatal1], ?_, ?_⟩
  · intro h
    rw [runScript_fatal2 h]
  · intro pr pa hpr hpa
    have hrun : runScript true df0 = runExports (derivedOf df0 pr pa) (colMapOf df0) :=
      runScript_resolved hpr hpa
    rw [hrun, runExports_exit]
    by_cases h : (analyticsOutcome (derivedOf df0 pr pa)).1 = true <;> simp [h]

/-- Counterexample to C1 as stated: `wDF` is a well-formed table that
resolves both price and part identifier, yet the run on it terminates with
a non-zero exit status (the extra-analytics section raises on the absent
`Brand` column). -/
theorem C1_counterexample :
    WF wDF ∧
    (colMapOf wDF).price = some "Price" ∧ (colMapOf wDF).part = some "Part_Name" ∧
    (runScript true wDF).exit ≠ 0 := by
  decide

/-- Witness for C1 (amended): the mandatory-column branch at `noPriceDF`
and the guarded-run branch at `wDF`, through the theorem. -/
theorem C1_witness :
    ((colMapOf noPriceDF).price = none ∧ (runScript true noPriceDF).exit = 1) ∧
    ((colMapOf wDF).price = some "Price" ∧ (colMapOf wDF).part = some "Part_Name" ∧
      (runScript true wDF).exit ≠ 0) := by
  have h1 := C1_exit_codes noPriceDF
  have h2 := C1_exit_codes wDF
  refine ⟨⟨by decide, h1.2.1 (Or.inl (by decide))⟩, by decide, by decide, ?_⟩
  intro h0
  have hx := (h2.2.2 "Price" "Part_Name" (by decide) (by decide)).mp h0
  exact absurd hx (by decide)

/-- C2 (amended): far from being dead code, the extra-analytics section is
entered on every run that passes both fatal guards — the cleaned CSV is
always written just before the manifest loop, so the loop's existence test
succeeds at least once and the loop body (the analytics section) runs. -/
theorem C2_extra_analytics_entered (df0 : DF) (pr pa : String)
    (hpr : (colMapOf df0).price = some pr) (hpa : (colMapOf df0).part = some pa) :
    (runScript true df0).enteredExtra = true := by
  have hrun : runScript true df0 = runExports (derivedOf df0 pr pa) (colMapOf df0) :=
    runScript_resolved hpr hpa
  rw [hrun, runExports_entered]

/-- Counterexample to C2 as stated: a concrete run (on `wDF`) that enters
the extra-analytics section. -/
theorem C2_counterexample : (runScript true wDF).enteredExtra = true := by
  decide

/-- Witness for C2 (amended) at the concrete table `noCpDF`, through the
theorem. -/
theorem C2_witness :
    (colMapOf noCpDF).price = some "Price" ∧ (colMapOf noCpDF).part = some "Part_Name" ∧
    (runScript true noCpDF).enteredExtra = true :=
  ⟨by decide, by decide,
    C2_extra_analytics_entered noCpDF "Price" "Part_Name" (by decide) (by decide)⟩

end AutoPricing
